import Mathlib

/-!
# git-remote-grpc: a shallow embedding of the relay and of the request gate

Two programs are embedded here.

* `cmd/grpc-server/main.go`: `Server.parseHeader`, `Server.Connect`,
  `streamReader.Read`, `streamWriter.Write`.
* `cmd/git-remote-grpc/main.go`: `run`, `connect` (its writer goroutine and
  its read loop).

Go strings and byte slices are both finite byte sequences, so both are
`List Byte`.  What the Go code obtains from its environment (the gRPC stream,
the metadata of the incoming context, `exec.Cmd.Run`, the local standard
streams) is passed in as explicit data: the frames a stream will deliver and
the error that ends it, the outcome of each `Send` and each `Write`, the
results of each local `Read`.  Effects are recorded in an explicit list, in
program order.
-/

namespace GitRemoteGrpc

/-! ## Go values -/

abbrev Byte := UInt8

/-- A Go `string` (or `[]byte`): an immutable finite sequence of bytes. -/
abbrev GoString := List Byte

/-- The bytes of an ASCII string literal of the source. -/
def lit (s : String) : GoString := s.toList.map (fun c => UInt8.ofNat c.toNat)

/-- A Go `error` value that is not nil.  `EOF` is the sentinel `io.EOF`, which the
source tests with `==`; every other error is known by its text. -/
inductive GoError where
  | EOF
  | other (text : GoString)
  deriving DecidableEq, Repr

/-- The method `Error()` of an error value, as `%v` prints it. -/
def GoError.Error : GoError → GoString
  | .EOF => lit "EOF"
  | .other t => t

/-- The builtin `copy(dst, src)`: the number of bytes copied, which is the
smaller of the two lengths, and `dst` afterwards. -/
def copy (dst src : List Byte) : Nat × List Byte :=
  let n := min dst.length src.length
  (n, src.take n ++ dst.drop n)

/-! ## gRPC values -/

/-- The two `codes.Code` values the server uses. -/
inductive Code where
  | InvalidArgument
  | Internal
  deriving DecidableEq, Repr

/-- A gRPC status error: what `status.Error` and `status.Errorf` build. -/
structure Status where
  code : Code
  msg : GoString
  deriving DecidableEq, Repr

/-- The type `metadata.MD`, a map from a key to its values; a key that is absent has no
value. -/
abbrev MD := GoString → List GoString

/-- The method `md.Get(k)`; the keys the source asks for are lower-case literals. -/
def MD.Get (md : MD) (k : GoString) : List GoString := md k

/-- How `%v` prints a `[]string`: the elements between brackets, one space apart. -/
def fmtStrings (xs : List GoString) : GoString :=
  lit "[" ++ (xs.intersperse (lit " ")).flatten ++ lit "]"

/-- The receiving half of a stream: the frames still to arrive, the error `Recv` returns
once they are used up (`io.EOF` when the peer completed the stream), and the number of
`Recv` calls made so far. -/
structure RecvStream where
  frames : List (List Byte)
  fin : GoError
  recvCalls : Nat
  deriving DecidableEq, Repr

/-- The method `stream.Recv()`: the next frame, or the error that ends the stream. -/
def RecvStream.Recv (s : RecvStream) : Except GoError (List Byte) × RecvStream :=
  match s.frames with
  | f :: rest => (.ok f, { s with frames := rest, recvCalls := s.recvCalls + 1 })
  | [] => (.error s.fin, { s with recvCalls := s.recvCalls + 1 })

/-- A server-side stream `gitpb.Git_ConnectServer`: the metadata of its context, if any
(`metadata.FromIncomingContext`), and its receiving half. -/
structure ServerStream where
  md : Option MD
  rx : RecvStream

/-! ## cmd/grpc-server/main.go -/

def pushSvc : GoString := lit "git-receive-pack"

def fetchSvc : GoString := lit "git-upload-pack"

/-- The method `Server.parseHeader`.  `svc[0]` and `repo[0]` are read after the length guard, so
the index is in range. -/
def parseHeader (stream : ServerStream) : Except Status (GoString × GoString) :=
  match stream.md with
  | none => .error ⟨.InvalidArgument, lit "missing stream metadata"⟩
  | some md =>
    let repo := md.Get (lit "repository")
    let svc := md.Get (lit "service")
    if repo.length ≠ 1 ∨ svc.length ≠ 1 then
      .error ⟨.InvalidArgument,
        lit "invalid repository (" ++ fmtStrings repo ++ lit ") or service ("
          ++ fmtStrings svc ++ lit ")"⟩
    else if svc.getD 0 [] ≠ pushSvc ∧ svc.getD 0 [] ≠ fetchSvc then
      .error ⟨.InvalidArgument, lit "bad service: " ++ svc.getD 0 []⟩
    else
      .ok (svc.getD 0 [], repo.getD 0 [])

/-- The state of a `streamReader`: the stream and the bytes left over from the last frame. -/
structure streamReader where
  stream : RecvStream
  buf : List Byte
  deriving DecidableEq, Repr

/-- What one `Read(p)` gives back: `n`, the error (nil is `none`), and `p` afterwards. -/
structure ReadOut where
  n : Nat
  err : Option GoError
  p : List Byte
  deriving DecidableEq, Repr

/-- The method `streamReader.Read`. -/
def streamReader.Read (sr : streamReader) (p : List Byte) : ReadOut × streamReader :=
  if sr.buf.length > 0 then
    let (n, p1) := copy p sr.buf
    (⟨n, none, p1⟩, { sr with buf := sr.buf.drop n })
  else
    match sr.stream.Recv with
    | (.error err, s1) => (⟨0, some err, p⟩, { sr with stream := s1 })
    | (.ok data, s1) =>
      let (n, p1) := copy p data
      (⟨n, none, p1⟩, { stream := s1, buf := data.drop n })

/-- The bytes a `Read` delivered to its caller: `p[:n]`. -/
def ReadOut.bytes (o : ReadOut) : List Byte := o.p.take o.n

/-- The method `streamWriter.Write`, given what `stream.Send` returns for the frame `p`. -/
def streamWriter.Write (sendErr : Option GoError) (p : List Byte) : Nat × Option GoError :=
  match sendErr with
  | some err => (0, some err)
  | none => (p.length, none)

/-- A call made on the stream. -/
inductive StreamEffect where
  | recv
  | send (data : List Byte)
  deriving DecidableEq, Repr

/-- What `exec.Command(name, args...)` followed by `cmd.Run()` comes to.  `notStarted err`:
the executable was not found, or could not be started; `Run` returns the error, there is no
process, and nothing is written to the `stderr` buffer.  `ran err stderr calls`: a process was
started and waited for; `err` is what `Run` returns (nil is `none`), `stderr` the bytes the
child wrote to the `stderr` buffer, `calls` the stream calls made through the `streamReader`
and the `streamWriter` that were bound to the child's standard input and output. -/
inductive CmdResult where
  | notStarted (err : GoError)
  | ran (err : Option GoError) (stderr : List Byte) (calls : List StreamEffect)
  deriving DecidableEq, Repr

/-- What `cmd.Run()` returned (nil is `none`). -/
def CmdResult.err : CmdResult → Option GoError
  | .notStarted err => some err
  | .ran err _ _ => err

/-- The contents of the `stderr` buffer after `cmd.Run()`. -/
def CmdResult.stderr : CmdResult → List Byte
  | .notStarted _ => []
  | .ran _ stderr _ => stderr

/-- An effect of `Server.Connect`, in program order: the call of `exec.Command` and `cmd.Run`,
the start of a process, a call on the stream. -/
inductive Effect where
  | command (name : GoString) (args : List GoString)
  | spawn (name : GoString) (args : List GoString)
  | stream (e : StreamEffect)
  deriving DecidableEq, Repr

/-- Whether an effect is the start of a process. -/
def Effect.isSpawn : Effect → Bool
  | .spawn _ _ => true
  | _ => false

/-- Whether an effect is a call of `exec.Command` and `cmd.Run`. -/
def Effect.isCommand : Effect → Bool
  | .command _ _ => true
  | _ => false

/-- The method `Server.Connect`.  `cmdRun name args` stands for
`exec.Command(name, args...)` followed by `cmd.Run()` with the three standard streams bound
as in the source. -/
def Connect (cmdRun : GoString → List GoString → CmdResult) (stream : ServerStream) :
    List Effect × Option Status :=
  match parseHeader stream with
  | .error err => ([], some err)
  | .ok (svc, repoPath) =>
    let r := cmdRun svc [repoPath]
    (Effect.command svc [repoPath] ::
      (match r with
        | .notStarted _ => []
        | .ran _ _ calls => Effect.spawn svc [repoPath] :: calls.map Effect.stream),
      match r.err with
      | none => none
      | some _ => some ⟨.Internal, svc ++ lit " failed: " ++ r.stderr⟩)

/-! ## cmd/git-remote-grpc/main.go -/

/-- The length of `buf` in the writer goroutine: `var buf [1024]byte`. -/
def bufLen : Nat := 1024

/-- One result of `stdin.Read(buf[:])`: the bytes now in `buf[:n]` and the error (nil is
`none`).  An `io.Reader` returns `0 <= n <= len(p)`. -/
structure ReadResult where
  data : List Byte
  le : data.length ≤ bufLen
  err : Option GoError

/-- An event of the writer goroutine, in program order. -/
inductive UpEvent where
  | read (data : List Byte) (err : Option GoError)
  | send (data : List Byte) (err : Option GoError)
  | closeSend
  | signal (v : Option GoError)
  deriving DecidableEq, Repr

/-- The writer goroutine of `connect`, from its `k`-th `Send` on.  `sendRes i` is what the
`i`-th `stream.Send` returns; `reads` are the results of the successive `stdin.Read` calls.
When `reads` is used up and the goroutine has not returned, it is blocked in `Read`. -/
def uploadTask (sendRes : Nat → Option GoError) : List ReadResult → Nat → List UpEvent
  | [], _ => []
  | r :: rest, k =>
    let onReadErr (k1 : Nat) : List UpEvent :=
      match r.err with
      | some .EOF => [.closeSend, .signal none]
      | some readErr => [.signal (some (.other (lit "reading stdin: " ++ readErr.Error)))]
      | none => uploadTask sendRes rest k1
    .read r.data r.err ::
      if r.data.length > 0 then
        match sendRes k with
        | some err =>
          [.send r.data (some err), .signal (some (.other (lit "write: " ++ err.Error)))]
        | none => .send r.data none :: onReadErr (k + 1)
      else onReadErr k

/-- The value the goroutine put on `writeErr`, if it has put one. -/
def signalOf : List UpEvent → Option (Option GoError)
  | [] => none
  | .signal v :: _ => some v
  | _ :: rest => signalOf rest

/-- An event of the read loop of `connect`, in program order. -/
inductive DownEvent where
  | recv
  | write (data : List Byte) (err : Option GoError)
  | waitSignal
  deriving DecidableEq, Repr

/-- How a function call ends: it returns its error (nil is `none`), or it never returns. -/
inductive Outcome where
  | returned (err : Option GoError)
  | blocked
  deriving DecidableEq, Repr

/-- The read loop of `connect`, from its `k`-th `stdout.Write` on.  The stream delivers `frames`
and then fails with `fin`; `writeRes i` is what the `i`-th `stdout.Write` returns; `sig` is the
value `<-writeErr` receives, `none` when the goroutine never puts one. -/
def downloadLoop (writeRes : Nat → Option GoError) (sig : Option (Option GoError))
    (fin : GoError) : List (List Byte) → Nat → List DownEvent × Outcome
  | [], _ =>
    match fin with
    | .EOF =>
      match sig with
      | some v => ([.recv, .waitSignal], .returned v)
      | none => ([.recv, .waitSignal], .blocked)
    | err => ([.recv], .returned (some (.other (lit "read: " ++ err.Error))))
  | data :: rest, k =>
    match writeRes k with
    | some err =>
      ([.recv, .write data (some err)],
        .returned (some (.other (lit "writing stdout: " ++ err.Error))))
    | none =>
      let (evs, out) := downloadLoop writeRes sig fin rest (k + 1)
      (.recv :: .write data none :: evs, out)

/-- What an opened client stream `gitpb.Git_ConnectClient` will do: the frames it delivers, the
error that ends it, and what each `Send` returns. -/
structure ClientStream where
  frames : List (List Byte)
  fin : GoError
  sendRes : Nat → Option GoError

/-- Everything `connect` did. -/
structure ConnectRun where
  opened : Bool
  announced : List (List Byte × Option GoError)
  up : List UpEvent
  down : List DownEvent
  out : Outcome

/-- The function `connect`.  `grpcConnect svc` is the result of `grpcConnect(args, svc)`;
`reads` are the results of the reads of `stdin`; `writeRes i` is what the `i`-th write to the
process's standard output returns, and `k` writes were made before the call.  The newline
that announces the connection is write number `k`, and its error is ignored. -/
def connect (grpcConnect : GoString → Except GoError ClientStream)
    (writeRes : Nat → Option GoError) (svc : GoString) (reads : List ReadResult) (k : Nat) :
    ConnectRun :=
  match grpcConnect svc with
  | .error err => ⟨false, [], [], [], .returned (some err)⟩
  | .ok stream =>
    let up := uploadTask stream.sendRes reads 0
    let (down, out) := downloadLoop writeRes (signalOf up) stream.fin stream.frames (k + 1)
    ⟨true, [(lit "\n", writeRes k)], up, down, out⟩

/-- The method `ReadString(delim)` of a `bufio.Reader` that holds `input` and then fails with
`fin`: the bytes up to and including the first `delim`, or all the bytes and the error; and
the bytes that remain. -/
def ReadString (delim : Byte) (fin : GoError) :
    List Byte → GoString × Option GoError × List Byte
  | [] => ([], some fin, [])
  | b :: rest =>
    if b = delim then ([b], none, rest)
    else
      let (s, err, rem) := ReadString delim fin rest
      (b :: s, err, rem)

/-- The function `strings.HasPrefix`. -/
def HasPrefix (s pre : GoString) : Bool := pre.isPrefixOf s

/-- How `run` ends: with an error, or in the call of `connect` whose result it returns. -/
inductive RunEnd (ρ : Type) where
  | failed (err : GoError)
  | connected (r : ρ)
  | outOfFuel

/-- The command loop of `run`.  `connect svc rest k` stands for
`connect(args, service, stdin, stdout)` with `rest` the bytes `stdin` still holds and `k` the
number of writes made to `stdout` so far.  The result is the list of writes made to `stdout`,
each with what it returned, and how `run` ended.  Every turn consumes at least one byte of input,
so `fuel` larger than the length of the input is never used up. -/
def runLoop {ρ : Type} (connect : GoString → List Byte → Nat → ρ)
    (writeRes : Nat → Option GoError) (fin : GoError) :
    Nat → List Byte → Nat → List (List Byte × Option GoError) × RunEnd ρ
  | 0, _, _ => ([], .outOfFuel)
  | fuel + 1, input, k =>
    match ReadString 10 fin input with
    | (_, some err, _) =>
      ([], .failed (.other (lit "unexpected error reading stdin: " ++ err.Error)))
    | (line, none, rest) =>
      let cmd := line.take (line.length - 1)
      if cmd = lit "capabilities" then
        match writeRes k with
        | some err => ([(lit "*connect\n\n", some err)], .failed err)
        | none =>
          let (ws, e) := runLoop connect writeRes fin fuel rest (k + 1)
          ((lit "*connect\n\n", none) :: ws, e)
      else if HasPrefix cmd (lit "connect ") then
        let service := cmd.drop (lit "connect ").length
        ([], .connected (connect service rest k))
      else
        ([], .failed (.other (lit "unsupported command: " ++ cmd)))

/-- The function `run` on the standard input `input`, which ends with the error `fin`. -/
def run {ρ : Type} (connect : GoString → List Byte → Nat → ρ)
    (writeRes : Nat → Option GoError) (fin : GoError) (input : List Byte) :
    List (List Byte × Option GoError) × RunEnd ρ :=
  runLoop connect writeRes fin (input.length + 1) input 0

/-! ## Vocabulary of the statements -/

/-- The text of the error `parseHeader` returns for metadata that is present but does not hold
exactly one `repository` and exactly one `service`. -/
def badMetadataMsg (md : MD) : GoString :=
  lit "invalid repository (" ++ fmtStrings (md.Get (lit "repository")) ++ lit ") or service ("
    ++ fmtStrings (md.Get (lit "service")) ++ lit ")"

/-- Successive `Read` calls on one `streamReader`, one per caller buffer, and what each gave. -/
def readAll (sr : streamReader) : List (List Byte) → List ReadOut
  | [] => []
  | p :: ps => (sr.Read p).1 :: readAll (sr.Read p).2 ps

/-- The bytes a `streamReader` still owes its caller: the leftover, then the frames to come. -/
def pending (sr : streamReader) : List Byte := sr.buf ++ sr.stream.frames.flatten

/-- A bound on the number of successful reads into non-empty buffers: the bytes pending plus
the frames to come. -/
def owed (sr : streamReader) : Nat := (pending sr).length + sr.stream.frames.length

/-- The frames the goroutine sent: the data of its `Send` calls that succeeded, in order. -/
def framesSent : List UpEvent → List (List Byte)
  | [] => []
  | .send data none :: rest => data :: framesSent rest
  | _ :: rest => framesSent rest

/-- The chunks the goroutine read from local input, in order. -/
def dataRead : List UpEvent → List (List Byte)
  | [] => []
  | .read data _ :: rest => data :: dataRead rest
  | _ :: rest => dataRead rest

/-- The read results up to and including the first that carries an error. -/
def upToFirstErr : List ReadResult → List ReadResult
  | [] => []
  | r :: rest => if r.err.isSome then [r] else r :: upToFirstErr rest

/-- The facts about a trace of the goroutine that hold of every run. -/
def UploadFacts (evs : List UpEvent) : Prop :=
  (UpEvent.signal none ∈ evs ↔
    (∃ d, UpEvent.read d (some .EOF) ∈ evs) ∧ ∀ d e, UpEvent.send d e ∈ evs → e = none) ∧
  (UpEvent.signal none ∈ evs →
    ∃ pre, evs = pre ++ [.closeSend, .signal none] ∧ UpEvent.closeSend ∉ pre) ∧
  (∀ d e, UpEvent.send d (some e) ∈ evs →
    UpEvent.signal (some (.other (lit "write: " ++ e.Error))) ∈ evs ∧
    UpEvent.closeSend ∉ evs) ∧
  (∀ d e, UpEvent.read d (some e) ∈ evs → e ≠ .EOF →
    UpEvent.closeSend ∉ evs ∧ UpEvent.signal none ∉ evs ∧
    ((∀ d2 e2, UpEvent.send d2 e2 ∈ evs → e2 = none) →
      UpEvent.signal (some (.other (lit "reading stdin: " ++ e.Error))) ∈ evs)) ∧
  (UpEvent.closeSend ∈ evs → UpEvent.signal none ∈ evs)

/-- The number of `Send` calls the goroutine makes for the given reads: one for each that
is not empty. -/
def sendCount (l : List ReadResult) : Nat :=
  (l.filter (fun r => decide (r.data.length > 0))).length

/-- The events of the goroutine for reads whose `Send`, if any, succeeded: each read, followed
by the `Send` of its bytes when there are some. -/
def okEvents (l : List ReadResult) : List UpEvent :=
  l.flatMap (fun r => .read r.data r.err :: if r.data.length > 0 then [.send r.data none] else [])

/-- The events of the read loop for frames that were received and written whole. -/
def relayed (frames : List (List Byte)) : List DownEvent :=
  frames.flatMap (fun data => [.recv, .write data none])

/-- The control input made of `k` lines `capabilities`. -/
def capLines (k : Nat) : List Byte := (List.replicate k (lit "capabilities\n")).flatten

/-- The reply `run` writes for one line `capabilities`. -/
def capReply : List Byte := lit "*connect\n\n"

/-! ## Example inputs -/

/-- Example metadata: one `service` value `svc` and one `repository` value `demo.git`. -/
def mdOf (svc : GoString) : MD := fun k =>
  if k = lit "service" then [svc]
  else if k = lit "repository" then [lit "demo.git"]
  else []

/-- Example metadata with an allowed `service` and no `repository` at all. -/
def mdNoRepo : MD := fun k => if k = lit "service" then [fetchSvc] else []

/-- Example metadata with two `service` values, the first of them allowed. -/
def mdTwoSvc : MD := fun k =>
  if k = lit "service" then [pushSvc, lit "sh"]
  else if k = lit "repository" then [lit "demo.git"]
  else []

/-- An example stream that delivers nothing and is then complete. -/
def rxDone : RecvStream := ⟨[], .EOF, 0⟩

/-- An example child that reads one frame, writes one, complains and fails. -/
def cmdFails : GoString → List GoString → CmdResult := fun _ _ =>
  .ran (some (.other (lit "exit status 128"))) (lit "fatal: not a git repository\n")
    [.recv, .send (lit "0000")]

/-- An example child that succeeds without a word. -/
def cmdOk : GoString → List GoString → CmdResult := fun _ _ => .ran none [] []

/-- An example command whose executable is not installed: no process is started. -/
def cmdMissing : GoString → List GoString → CmdResult := fun _ _ =>
  .notStarted (.other (lit "executable file not found in $PATH"))

/-- An example `streamReader` with three bytes left over and one frame to come. -/
def srLeft : streamReader := ⟨⟨[[9]], .EOF, 4⟩, [1, 2, 3]⟩

/-- Example frames, one of them empty. -/
def demoFrames : List (List Byte) := [[1, 2, 3], [], [4, 5]]

/-- Example caller buffers of sizes 2, 0, 5, 1, 1, 1, 1, 1, 1 and 1. -/
def demoBufs : List (List Byte) :=
  [[0, 0], [], [0, 0, 0, 0, 0], [0], [0], [0], [0], [0], [0], [0]]

/-- Every `Send` succeeds. -/
def sendOk : Nat → Option GoError := fun _ => none

/-- Every `Send` fails with `io.EOF`, as on a broken stream. -/
def sendBroken : Nat → Option GoError := fun _ => some .EOF

/-- Example reads of local input: two bytes, then nothing, then one byte together with
`io.EOF`. -/
def demoReads : List ReadResult :=
  [⟨[1, 2], by decide, none⟩, ⟨[], by decide, none⟩, ⟨[3], by decide, some .EOF⟩]

/-- Example reads of local input: one byte together with `io.EOF`. -/
def lastRead : List ReadResult := [⟨[7], by decide, some .EOF⟩]

/-- Example reads of local input that have not ended: two bytes, then nothing, and the input
stays open. -/
def openReads : List ReadResult := [⟨[1, 2], by decide, none⟩, ⟨[], by decide, none⟩]

/-- Every write to standard output succeeds. -/
def writeOk : Nat → Option GoError := fun _ => none

/-- Every write to standard output fails, as when it is closed. -/
def writeClosed : Nat → Option GoError := fun _ => some (.other (lit "file already closed"))

/-- An example dial that opens a stream delivering two frames and then complete, on which
every `Send` fails with `io.EOF`. -/
def dialBroken : GoString → Except GoError ClientStream := fun _ =>
  .ok ⟨[[10, 11], [12]], .EOF, fun _ => some .EOF⟩

/-- An example dial that opens a stream delivering two frames and then failing. -/
def dialReset : GoString → Except GoError ClientStream := fun _ =>
  .ok ⟨[[10, 11], [12]], .other (lit "connection reset"), sendOk⟩

/-- An example `connect` that reports the service it was called with, the input left to
it, and the number of writes made before it. -/
def connectEcho : GoString → List Byte → Nat → GoString × List Byte × Nat :=
  fun svc rest k => (svc, rest, k)

/-! ## Lemmas -/

theorem length_one_getD {α : Type} (xs : List α) (d : α) (h : xs.length = 1) :
    xs = [xs.getD 0 d] := by
  match xs, h with
  | [x], _ => rfl

/-- Inversion of a successful `parseHeader`. -/
theorem parseHeader_ok_inv (stream : ServerStream) (svc repo : GoString)
    (h : parseHeader stream = .ok (svc, repo)) :
    ∃ md, stream.md = some md ∧ md.Get (lit "service") = [svc] ∧
      md.Get (lit "repository") = [repo] ∧ (svc = pushSvc ∨ svc = fetchSvc) := by
  unfold parseHeader at h
  cases hmd : stream.md with
  | none => simp [hmd] at h
  | some md =>
    simp only [hmd] at h
    split_ifs at h with h1 h2
    · simp only [Except.ok.injEq, Prod.mk.injEq] at h
      have hr : (md.Get (lit "repository")).length = 1 := by
        by_contra hc; exact h1 (Or.inl hc)
      have hs : (md.Get (lit "service")).length = 1 := by
        by_contra hc; exact h1 (Or.inr hc)
      refine ⟨md, rfl, ?_, ?_, ?_⟩
      · rw [← h.1]; exact length_one_getD _ _ hs
      · rw [← h.2]; exact length_one_getD _ _ hr
      · rw [← h.1]; tauto




theorem copy_bytes (p src : List Byte) :
    (copy p src).2.take (copy p src).1 = src.take (min p.length src.length) := by
  simp only [copy]
  rw [List.take_append_of_le_length (by simp)]
  simp

/-- One `Read` hands over a prefix of what is pending and keeps the rest; it reports an
error only when nothing is pending, and then the error is the one that ends the stream. -/
theorem Read_step (sr : streamReader) (p : List Byte) :
    (sr.Read p).1.bytes ++ pending (sr.Read p).2 = pending sr ∧
    (sr.Read p).2.stream.fin = sr.stream.fin ∧
    (∀ e, (sr.Read p).1.err = some e → e = sr.stream.fin ∧ pending sr = []) := by
  by_cases hpos : sr.buf.length > 0
  · simp only [streamReader.Read, if_pos hpos, ReadOut.bytes, pending, copy_bytes]
    refine ⟨?_, trivial, fun e h => by simp at h⟩
    simp only [copy]
    rw [← List.append_assoc, List.take_append_drop]
  · have hb : sr.buf = [] := by
      cases hbuf : sr.buf with
      | nil => rfl
      | cons a l => simp [hbuf] at hpos
    simp only [streamReader.Read, if_neg hpos, RecvStream.Recv]
    cases hf : sr.stream.frames with
    | nil =>
      simp only [ReadOut.bytes, pending, hb, hf]
      refine ⟨by simp, trivial, fun e h => ?_⟩
      simp at h
      simp [h]
    | cons f rest =>
      simp only [ReadOut.bytes, pending, hb, hf, copy_bytes]
      refine ⟨?_, trivial, fun e h => by simp at h⟩
      simp only [copy, List.flatten_cons, List.nil_append]
      rw [← List.append_assoc, List.take_append_drop]

theorem readAll_spec (ps : List (List Byte)) : ∀ sr : streamReader,
    ((readAll sr ps).map ReadOut.bytes).flatten <+: pending sr ∧
    ∀ (i : Nat) (e : GoError), ((readAll sr ps).map ReadOut.err)[i]? = some (some e) →
      e = sr.stream.fin ∧ (((readAll sr ps).take i).map ReadOut.bytes).flatten = pending sr := by
  induction ps with
  | nil => intro sr; simp [readAll]
  | cons p ps ih =>
    intro sr
    obtain ⟨h1, h2, h3⟩ := Read_step sr p
    obtain ⟨ih1, ih2⟩ := ih (sr.Read p).2
    constructor
    · simp only [readAll, List.map_cons, List.flatten_cons]
      rw [← h1]
      exact (List.prefix_append_right_inj _).mpr ih1
    · intro i e hi
      cases i with
      | zero =>
        simp only [readAll, List.map_cons, List.getElem?_cons_zero, Option.some.injEq] at hi
        obtain ⟨he, hp⟩ := h3 e hi
        exact ⟨he, by simp [hp]⟩
      | succ j =>
        simp only [readAll, List.map_cons, List.getElem?_cons_succ] at hi
        obtain ⟨he, hp⟩ := ih2 j e hi
        refine ⟨he.trans h2, ?_⟩
        simp only [readAll, List.take_succ_cons, List.map_cons, List.flatten_cons]
        rw [hp, h1]




theorem Read_progress (sr : streamReader) (p : List Byte) (hp : p ≠ []) :
    (sr.Read p).2.stream.fin = sr.stream.fin ∧
    ((sr.Read p).1.err = some sr.stream.fin ∨
      ((sr.Read p).1.err = none ∧ owed (sr.Read p).2 < owed sr)) := by
  have hpl : 0 < p.length := List.length_pos.mpr hp
  by_cases hpos : sr.buf.length > 0
  · refine ⟨by simp [streamReader.Read, if_pos hpos], Or.inr ?_⟩
    simp only [streamReader.Read, if_pos hpos, owed, pending, copy, List.length_append,
      List.length_drop, true_and]
    omega
  · have hb : sr.buf = [] := by
      cases hbuf : sr.buf with
      | nil => rfl
      | cons a l => simp [hbuf] at hpos
    simp only [streamReader.Read, if_neg hpos, RecvStream.Recv]
    cases hf : sr.stream.frames with
    | nil => exact ⟨rfl, Or.inl rfl⟩
    | cons f rest =>
      refine ⟨rfl, Or.inr ?_⟩
      simp only [owed, pending, copy, hb, hf, List.length_append, List.length_drop,
        List.flatten_cons, List.length_cons, List.length_nil, true_and]
      omega

theorem readAll_reaches_fin (ps : List (List Byte)) : ∀ sr : streamReader,
    (∀ p ∈ ps, p ≠ []) → owed sr < ps.length →
    ∃ i : Nat, ((readAll sr ps).map ReadOut.err)[i]? = some (some sr.stream.fin) := by
  induction ps with
  | nil => intro sr _ h; simp at h
  | cons p ps ih =>
    intro sr hne hlen
    obtain ⟨hfin, h | ⟨_, hlt⟩⟩ := Read_progress sr p (hne p (List.mem_cons_self _ _))
    · exact ⟨0, by simp [readAll, h]⟩
    · have hlen2 : owed (sr.Read p).2 < ps.length := by
        simp only [List.length_cons] at hlen; omega
      obtain ⟨i, hi⟩ := ih (sr.Read p).2 (fun q hq => hne q (List.mem_cons_of_mem _ hq)) hlen2
      exact ⟨i + 1, by simpa [readAll, hfin] using hi⟩


theorem framesSent_append (a b : List UpEvent) :
    framesSent (a ++ b) = framesSent a ++ framesSent b := by
  induction a with
  | nil => rfl
  | cons e a ih =>
    cases e with
    | send d err => cases err <;> simp [framesSent, ih]
    | _ => simp [framesSent, ih]

theorem uploadTask_allSent (sendRes : Nat → Option GoError) (hs : ∀ i, sendRes i = none)
    (reads : List ReadResult) : ∀ k,
    dataRead (uploadTask sendRes reads k) = (upToFirstErr reads).map ReadResult.data ∧
    framesSent (uploadTask sendRes reads k) =
      (dataRead (uploadTask sendRes reads k)).filter (fun d => decide (d.length > 0)) := by
  induction reads with
  | nil => intro k; simp [uploadTask, dataRead, framesSent, upToFirstErr]
  | cons r rest ih =>
    intro k
    rcases hre : r.err with _ | e
    · by_cases hn : r.data.length > 0
      · simp [uploadTask, hs, hre, hn, dataRead, framesSent, upToFirstErr, ih]
      · simp [uploadTask, hs, hre, hn, dataRead, framesSent, upToFirstErr, ih]
    · by_cases hn : r.data.length > 0
      · cases e <;> simp [uploadTask, hs, hre, hn, dataRead, framesSent, upToFirstErr]
      · cases e <;> simp [uploadTask, hs, hre, hn, dataRead, framesSent, upToFirstErr]




/-- One turn of the goroutine, unfolded: the events of the first read, then the rest. -/
theorem uploadTask_cons (sendRes : Nat → Option GoError) (r : ReadResult)
    (rest : List ReadResult) (k : Nat) :
    uploadTask sendRes (r :: rest) k =
      .read r.data r.err ::
        if r.data.length > 0 then
          match sendRes k with
          | some err =>
            [.send r.data (some err), .signal (some (.other (lit "write: " ++ err.Error)))]
          | none => .send r.data none ::
            (match r.err with
              | some .EOF => [.closeSend, .signal none]
              | some readErr =>
                [.signal (some (.other (lit "reading stdin: " ++ readErr.Error)))]
              | none => uploadTask sendRes rest (k + 1))
        else
          (match r.err with
            | some .EOF => [.closeSend, .signal none]
            | some readErr =>
              [.signal (some (.other (lit "reading stdin: " ++ readErr.Error)))]
            | none => uploadTask sendRes rest k) := by
  rfl

theorem uploadTask_signal_last (sendRes : Nat → Option GoError) (reads : List ReadResult) :
    ∀ k v, UpEvent.signal v ∈ uploadTask sendRes reads k →
      ∃ pre, uploadTask sendRes reads k = pre ++ [.signal v] ∧ ∀ w, UpEvent.signal w ∉ pre := by
  induction reads with
  | nil => intro k v h; simp [uploadTask] at h
  | cons r rest ih =>
    intro k v h
    rw [uploadTask_cons] at h ⊢
    rcases hre : r.err with _ | (_ | t) <;> rcases hs : sendRes k with _ | e <;>
      by_cases hn : r.data.length > 0 <;>
      simp only [hre, hs, hn, if_true, if_false, ↓reduceIte] at h ⊢
    all_goals first
      | (simp only [List.mem_cons, reduceCtorEq, false_or] at h
         obtain ⟨pre, hp, hw⟩ := ih _ v h
         rw [hp]
         first
          | exact ⟨_ :: _ :: pre, rfl, by simpa using hw⟩
          | exact ⟨_ :: pre, rfl, by simpa using hw⟩)
      | (simp at h; subst h
         first
          | exact ⟨[_, _, _], rfl, by simp⟩
          | exact ⟨[_, _], rfl, by simp⟩
          | exact ⟨[_], rfl, by simp⟩)


/-- The goroutine ends once a read reports an error. -/
theorem uploadTask_terminates (sendRes : Nat → Option GoError) (reads : List ReadResult) :
    ∀ k, (∃ r ∈ reads, r.err ≠ none) → ∃ v, UpEvent.signal v ∈ uploadTask sendRes reads k := by
  induction reads with
  | nil => intro k h; simp at h
  | cons r rest ih =>
    intro k h
    rw [uploadTask_cons]
    rcases hre : r.err with _ | (_ | t) <;> rcases hs : sendRes k with _ | e <;>
      by_cases hn : r.data.length > 0 <;>
      simp only [hre, hs, hn, if_true, if_false, ↓reduceIte]
    all_goals first
      | exact ⟨_, List.mem_cons_of_mem _ (List.mem_cons_of_mem _ (List.mem_cons_self _ _))⟩
      | exact ⟨_, List.mem_cons_of_mem _ (List.mem_cons_of_mem _ (List.mem_cons_of_mem _
          (List.mem_cons_self _ _)))⟩
      | exact ⟨_, List.mem_cons_of_mem _ (List.mem_cons_self _ _)⟩
      | (have h2 : ∃ r ∈ rest, r.err ≠ none := by
           obtain ⟨x, hx, hxe⟩ := h
           rcases List.mem_cons.mp hx with rfl | hx
           · exact absurd hre hxe
           · exact ⟨x, hx, hxe⟩
         first
          | (obtain ⟨v, hv⟩ := ih k h2
             exact ⟨v, List.mem_cons_of_mem _ hv⟩)
          | (obtain ⟨v, hv⟩ := ih (k + 1) h2
             exact ⟨v, List.mem_cons_of_mem _ (List.mem_cons_of_mem _ hv)⟩))

theorem UploadFacts_cons (a : UpEvent) (evs : List UpEvent)
    (ha : (∃ d, a = .read d none) ∨ (∃ d, a = .send d none)) (h : UploadFacts evs) :
    UploadFacts (a :: evs) := by
  obtain ⟨i1, i2, i3, i4, i5⟩ := h
  have hsig : ∀ v, UpEvent.signal v ∈ a :: evs ↔ UpEvent.signal v ∈ evs := by
    intro v; rcases ha with ⟨d, rfl⟩ | ⟨d, rfl⟩ <;> simp
  have hclose : UpEvent.closeSend ∈ a :: evs ↔ UpEvent.closeSend ∈ evs := by
    rcases ha with ⟨d, rfl⟩ | ⟨d, rfl⟩ <;> simp
  have hread : ∀ d e, UpEvent.read d (some e) ∈ a :: evs ↔ UpEvent.read d (some e) ∈ evs := by
    intro d e; rcases ha with ⟨d, rfl⟩ | ⟨d, rfl⟩ <;> simp
  have hsendE : ∀ d e, UpEvent.send d (some e) ∈ a :: evs ↔ UpEvent.send d (some e) ∈ evs := by
    intro d e; rcases ha with ⟨d, rfl⟩ | ⟨d, rfl⟩ <;> simp
  have hsend : (∀ d e, UpEvent.send d e ∈ a :: evs → e = none) ↔
      (∀ d e, UpEvent.send d e ∈ evs → e = none) := by
    constructor
    · intro h d e he; exact h d e (List.mem_cons_of_mem _ he)
    · intro h d e he
      rcases List.mem_cons.mp he with rfl | he
      · rcases ha with ⟨d, hd⟩ | ⟨d, hd⟩
        · cases hd
        · cases hd; rfl
      · exact h d e he
  refine ⟨?_, ?_, ?_, ?_, ?_⟩
  · rw [hsig, hsend, i1]
    simp only [hread]
  · intro h
    obtain ⟨pre, hp, hc⟩ := i2 ((hsig _).mp h)
    refine ⟨a :: pre, by rw [hp]; rfl, ?_⟩
    intro hm
    rcases List.mem_cons.mp hm with rfl | hm
    · rcases ha with ⟨d, hd⟩ | ⟨d, hd⟩ <;> cases hd
    · exact hc hm
  · intro d e h
    rw [hsig, hclose]
    exact i3 d e ((hsendE d e).mp h)
  · intro d e h hne
    rw [hsig, hsig, hclose, hsend]
    exact i4 d e ((hread d e).mp h) hne
  · rw [hsig, hclose]
    exact i5

theorem uploadTask_trace (sendRes : Nat → Option GoError) (reads : List ReadResult) :
    ∀ k, UploadFacts (uploadTask sendRes reads k) := by
  induction reads with
  | nil => intro k; simp [uploadTask, UploadFacts]
  | cons r rest ih =>
    intro k
    rw [uploadTask_cons]
    rcases hre : r.err with _ | (_ | t) <;> rcases hs : sendRes k with _ | e <;>
      by_cases hn : r.data.length > 0 <;>
      simp only [hre, hs, hn, if_true, if_false, ↓reduceIte]
    · exact UploadFacts_cons _ _ (Or.inl ⟨_, rfl⟩) (UploadFacts_cons _ _ (Or.inr ⟨_, rfl⟩) (ih _))
    · exact UploadFacts_cons _ _ (Or.inl ⟨_, rfl⟩) (ih _)
    · simp [UploadFacts]
    · exact UploadFacts_cons _ _ (Or.inl ⟨_, rfl⟩) (ih _)
    · refine ⟨by simp, fun _ => ⟨[_, _], rfl, by simp⟩, by simp, by simp, by simp⟩
    · refine ⟨by simp, fun _ => ⟨[_], rfl, by simp⟩, by simp, by simp, by simp⟩
    · simp [UploadFacts]
    · refine ⟨by simp, fun _ => ⟨[_], rfl, by simp⟩, by simp, by simp, by simp⟩
    · simp [UploadFacts]
    · simp [UploadFacts]
    · simp [UploadFacts]
    · simp [UploadFacts]




theorem downloadLoop_eof (writeRes : Nat → Option GoError) (sig : Option (Option GoError))
    (frames : List (List Byte)) : ∀ k, (∀ i, i < frames.length → writeRes (k + i) = none) →
    downloadLoop writeRes sig .EOF frames k =
      (relayed frames ++ [.recv, .waitSignal],
        match sig with
        | some v => .returned v
        | none => .blocked) := by
  induction frames with
  | nil => intro k _; cases sig <;> rfl
  | cons f rest ih =>
    intro k h
    have h0 : writeRes k = none := by simpa using h 0 (by simp)
    have hr : ∀ i, i < rest.length → writeRes (k + 1 + i) = none := by
      intro i hi
      have := h (i + 1) (by simpa using hi)
      rwa [show k + (i + 1) = k + 1 + i by omega] at this
    simp only [downloadLoop, h0, ih (k + 1) hr]
    simp [relayed]

theorem downloadLoop_recvErr (writeRes : Nat → Option GoError) (sig : Option (Option GoError))
    (t : GoString) (frames : List (List Byte)) :
    ∀ k, (∀ i, i < frames.length → writeRes (k + i) = none) →
    downloadLoop writeRes sig (.other t) frames k =
      (relayed frames ++ [.recv], .returned (some (.other (lit "read: " ++ t)))) := by
  induction frames with
  | nil => intro k _; rfl
  | cons f rest ih =>
    intro k h
    have h0 : writeRes k = none := by simpa using h 0 (by simp)
    have hr : ∀ i, i < rest.length → writeRes (k + 1 + i) = none := by
      intro i hi
      have := h (i + 1) (by simpa using hi)
      rwa [show k + (i + 1) = k + 1 + i by omega] at this
    simp only [downloadLoop, h0, ih (k + 1) hr]
    simp [relayed]

theorem downloadLoop_writeErr (writeRes : Nat → Option GoError) (sig : Option (Option GoError))
    (fin : GoError) (frames : List (List Byte)) :
    ∀ k j data e, frames[j]? = some data → (∀ i, i < j → writeRes (k + i) = none) →
    writeRes (k + j) = some e →
    downloadLoop writeRes sig fin frames k =
      (relayed (frames.take j) ++ [.recv, .write data (some e)],
        .returned (some (.other (lit "writing stdout: " ++ e.Error)))) := by
  induction frames with
  | nil => intro k j data e hj; simp at hj
  | cons f rest ih =>
    intro k j data e hj h he
    cases j with
    | zero =>
      simp only [List.getElem?_cons_zero, Option.some.injEq] at hj
      subst hj
      simp only [Nat.add_zero] at he
      simp [downloadLoop, he, relayed]
    | succ j =>
      simp only [List.getElem?_cons_succ] at hj
      have h0 : writeRes k = none := by simpa using h 0 (by simp)
      have hr : ∀ i, i < j → writeRes (k + 1 + i) = none := by
        intro i hi
        have := h (i + 1) (by omega)
        rwa [show k + (i + 1) = k + 1 + i by omega] at this
      have he2 : writeRes (k + 1 + j) = some e := by
        rwa [show k + (j + 1) = k + 1 + j by omega] at he
      simp only [downloadLoop, h0, ih (k + 1) j data e hj hr he2]
      simp [relayed]

theorem signalOf_of_mem (evs : List UpEvent) (v : Option GoError)
    (h : ∃ pre, evs = pre ++ [.signal v] ∧ ∀ w, UpEvent.signal w ∉ pre) :
    signalOf evs = some v := by
  obtain ⟨pre, rfl, hw⟩ := h
  induction pre with
  | nil => rfl
  | cons a pre ih =>
    have hpre : ∀ w, UpEvent.signal w ∉ pre := fun w hm => hw w (List.mem_cons_of_mem _ hm)
    cases a with
    | signal w => exact absurd (List.mem_cons_self _ _) (hw w)
    | read d e => simpa [signalOf] using ih hpre
    | send d e => simpa [signalOf] using ih hpre
    | closeSend => simpa [signalOf] using ih hpre




theorem ReadString_line (fin : GoError) (line rest : List Byte) (h : (10 : Byte) ∉ line) :
    ReadString 10 fin (line ++ 10 :: rest) = (line ++ [10], none, rest) := by
  induction line with
  | nil => simp [ReadString]
  | cons b l ih =>
    have hb : b ≠ 10 := fun hb => h (by simp [hb])
    have hl : (10 : Byte) ∉ l := fun hl => h (List.mem_cons_of_mem _ hl)
    simp [ReadString, hb, ih hl]

theorem cap_no_newline : (10 : Byte) ∉ lit "capabilities" := by decide

/-- One turn of the command loop on a line without a newline in it. -/
theorem runLoop_line {ρ : Type} (connect : GoString → List Byte → Nat → ρ)
    (writeRes : Nat → Option GoError) (fin : GoError) (fuel : Nat) (line rest : List Byte)
    (k : Nat) (h : (10 : Byte) ∉ line) :
    runLoop connect writeRes fin (fuel + 1) (line ++ 10 :: rest) k =
      if line = lit "capabilities" then
        match writeRes k with
        | some err => ([(capReply, some err)], .failed err)
        | none =>
          ((capReply, none) :: (runLoop connect writeRes fin fuel rest (k + 1)).1,
            (runLoop connect writeRes fin fuel rest (k + 1)).2)
      else if HasPrefix line (lit "connect ") then
        ([], .connected (connect (line.drop (lit "connect ").length) rest k))
      else
        ([], .failed (.other (lit "unsupported command: " ++ line))) := by
  simp only [runLoop, ReadString_line fin line rest h]
  have : (line ++ [10]).take ((line ++ [10]).length - 1) = line := by simp
  rw [this]
  split_ifs <;> rfl

theorem capLines_succ (k : Nat) (tail : List Byte) :
    capLines (k + 1) ++ tail = lit "capabilities" ++ 10 :: (capLines k ++ tail) := by
  simp [capLines, List.replicate_succ, lit]

theorem runLoop_caps {ρ : Type} (connect : GoString → List Byte → Nat → ρ)
    (writeRes : Nat → Option GoError) (fin : GoError) (tail : List Byte) :
    ∀ (k fuel w : Nat), (∀ i, i < k → writeRes (w + i) = none) →
    runLoop connect writeRes fin (k + fuel) (capLines k ++ tail) w =
      (List.replicate k (capReply, none) ++
          (runLoop connect writeRes fin fuel tail (w + k)).1,
        (runLoop connect writeRes fin fuel tail (w + k)).2) := by
  intro k
  induction k with
  | zero => intro fuel w _; simp [capLines]
  | succ k ih =>
    intro fuel w h
    have h0 : writeRes w = none := by simpa using h 0 (by simp)
    have hr : ∀ i, i < k → writeRes (w + 1 + i) = none := by
      intro i hi
      have := h (i + 1) (by omega)
      rwa [show w + (i + 1) = w + 1 + i by omega] at this
    rw [capLines_succ, show k + 1 + fuel = (k + fuel) + 1 by omega,
      runLoop_line connect writeRes fin _ _ _ _ cap_no_newline, if_pos rfl]
    simp only [h0, ih fuel (w + 1) hr]
    rw [show w + 1 + k = w + (k + 1) by omega]
    simp [List.replicate_succ]

theorem runLoop_caps_writeErr {ρ : Type} (connect : GoString → List Byte → Nat → ρ)
    (writeRes : Nat → Option GoError) (fin : GoError) (tail : List Byte) (err : GoError) :
    ∀ (j k fuel w : Nat), j < k → (∀ i, i < j → writeRes (w + i) = none) →
    writeRes (w + j) = some err →
    runLoop connect writeRes fin (k + fuel) (capLines k ++ tail) w =
      (List.replicate j (capReply, none) ++ [(capReply, some err)],
        .failed err) := by
  intro j
  induction j with
  | zero =>
    intro k fuel w hk _ he
    obtain ⟨k, rfl⟩ : ∃ k0, k = k0 + 1 := ⟨k - 1, by omega⟩
    simp only [Nat.add_zero] at he
    rw [capLines_succ, show k + 1 + fuel = (k + fuel) + 1 by omega,
      runLoop_line connect writeRes fin _ _ _ _ cap_no_newline, if_pos rfl]
    simp [he]
  | succ j ih =>
    intro k fuel w hk h he
    obtain ⟨k, rfl⟩ : ∃ k0, k = k0 + 1 := ⟨k - 1, by omega⟩
    have h0 : writeRes w = none := by simpa using h 0 (by simp)
    have hr : ∀ i, i < j → writeRes (w + 1 + i) = none := by
      intro i hi
      have := h (i + 1) (by omega)
      rwa [show w + (i + 1) = w + 1 + i by omega] at this
    have he2 : writeRes (w + 1 + j) = some err := by
      rwa [show w + (j + 1) = w + 1 + j by omega] at he
    rw [capLines_succ, show k + 1 + fuel = (k + fuel) + 1 by omega,
      runLoop_line connect writeRes fin _ _ _ _ cap_no_newline, if_pos rfl]
    simp only [h0, ih k fuel (w + 1) (by omega) hr he2]
    simp [List.replicate_succ]

theorem capLines_length (k : Nat) : (capLines k).length = 13 * k := by
  induction k with
  | zero => rfl
  | succ k ih =>
    have := congrArg List.length (capLines_succ k [])
    simp only [List.append_nil, List.length_append, List.length_cons] at this
    rw [this, ih]
    have : (lit "capabilities").length = 12 := by decide
    omega

theorem flatten_filter_nonempty (l : List (List Byte)) :
    (l.filter (fun d => decide (d.length > 0))).flatten = l.flatten := by
  induction l with
  | nil => rfl
  | cons a l ih =>
    cases a with
    | nil => simpa using ih
    | cons b a => simp [ih]

theorem uploadTask_sends_ok (sendRes : Nat → Option GoError) (hs : ∀ i, sendRes i = none)
    (reads : List ReadResult) :
    ∀ k d e, UpEvent.send d e ∈ uploadTask sendRes reads k → e = none ∧ 0 < d.length := by
  induction reads with
  | nil => intro k d e h; simp [uploadTask] at h
  | cons r rest ih =>
    intro k d e h
    rw [uploadTask_cons] at h
    by_cases hn : r.data.length > 0
    · simp only [hs k, hn, if_true, ↓reduceIte, List.mem_cons, reduceCtorEq, false_or,
        UpEvent.send.injEq] at h
      rcases h with ⟨rfl, rfl⟩ | h
      · exact ⟨rfl, hn⟩
      · rcases hre : r.err with _ | (_ | t) <;> simp only [hre] at h
        · exact ih _ d e h
        · simp at h
        · simp at h
    · simp only [hn, if_false, ↓reduceIte, List.mem_cons, reduceCtorEq, false_or] at h
      rcases hre : r.err with _ | (_ | t) <;> simp only [hre] at h
      · exact ih _ d e h
      · simp at h
      · simp at h

theorem relayed_no_wait (frames : List (List Byte)) : DownEvent.waitSignal ∉ relayed frames := by
  induction frames with
  | nil => simp [relayed]
  | cons f rest ih => simp [relayed]

theorem signalOf_none (evs : List UpEvent) (h : ∀ v, UpEvent.signal v ∉ evs) :
    signalOf evs = none := by
  induction evs with
  | nil => rfl
  | cons a evs ih =>
    have hr : ∀ v, UpEvent.signal v ∉ evs := fun v hm => h v (List.mem_cons_of_mem _ hm)
    cases a with
    | signal w => exact absurd (List.mem_cons_self _ _) (h w)
    | read d e => simpa [signalOf] using ih hr
    | send d e => simpa [signalOf] using ih hr
    | closeSend => simpa [signalOf] using ih hr

theorem connect_not_cap (svc : GoString) : lit "connect " ++ svc ≠ lit "capabilities" := by
  intro h
  have := congrArg (fun l => l.get? 1) h
  simp [lit] at this

theorem HasPrefix_append (pre svc : GoString) : HasPrefix (pre ++ svc) pre = true := by
  simp [HasPrefix]

theorem sendCount_cons (r : ReadResult) (l : List ReadResult) :
    sendCount (r :: l) = (if r.data.length > 0 then 1 else 0) + sendCount l := by
  by_cases h : r.data.length > 0 <;> simp [sendCount, List.filter_cons, h]
  omega

theorem sendCount_append (a b : List ReadResult) :
    sendCount (a ++ b) = sendCount a + sendCount b := by
  simp [sendCount]

theorem okEvents_quiet (l : List ReadResult) :
    UpEvent.closeSend ∉ okEvents l ∧ ∀ v, UpEvent.signal v ∉ okEvents l := by
  induction l with
  | nil => simp [okEvents]
  | cons r l ih =>
    obtain ⟨ih1, ih2⟩ := ih
    have hc : okEvents (r :: l) =
        (.read r.data r.err :: if r.data.length > 0 then [.send r.data none] else []) ++
          okEvents l := by simp [okEvents]
    rw [hc]
    by_cases h : r.data.length > 0
    · simp only [h, if_true]
      exact ⟨by simpa using ih1, fun v => by simpa using ih2 v⟩
    · simp only [h, if_false]
      exact ⟨by simpa using ih1, fun v => by simpa using ih2 v⟩

/-- While reads carry no error and their sends succeed, the goroutine goes on. -/
theorem uploadTask_ok_append (sendRes : Nat → Option GoError) (pre : List ReadResult) :
    ∀ (k : Nat) (rest : List ReadResult), (∀ x ∈ pre, x.err = none) →
    (∀ i, i < sendCount pre → sendRes (k + i) = none) →
    uploadTask sendRes (pre ++ rest) k =
      okEvents pre ++ uploadTask sendRes rest (k + sendCount pre) := by
  induction pre with
  | nil => intro k rest _ _; simp [okEvents, sendCount]
  | cons r pre ih =>
    intro k rest he hs
    have hre : r.err = none := he r (List.mem_cons_self _ _)
    have he2 : ∀ x ∈ pre, x.err = none := fun x hx => he x (List.mem_cons_of_mem _ hx)
    have hc : okEvents (r :: pre) =
        (.read r.data r.err :: if r.data.length > 0 then [.send r.data none] else []) ++
          okEvents pre := by simp [okEvents]
    rw [List.cons_append, uploadTask_cons, hc, sendCount_cons]
    by_cases hn : r.data.length > 0
    · have h0 : sendRes k = none := by
        have := hs 0 (by rw [sendCount_cons]; simp [hn])
        simpa using this
      have hs2 : ∀ i, i < sendCount pre → sendRes (k + 1 + i) = none := by
        intro i hi
        have := hs (i + 1) (by rw [sendCount_cons]; simp [hn]; omega)
        rwa [show k + (i + 1) = k + 1 + i by omega] at this
      simp only [hn, if_true, h0, hre, ih (k + 1) rest he2 hs2]
      simp [Nat.add_assoc]
    · have hs2 : ∀ i, i < sendCount pre → sendRes (k + i) = none := by
        intro i hi
        exact hs i (by rw [sendCount_cons]; simp [hn]; omega)
      simp only [hn, if_false, hre, ih k rest he2 hs2]
      simp

theorem okEvents_append (a b : List ReadResult) :
    okEvents (a ++ b) = okEvents a ++ okEvents b := by
  simp [okEvents]

theorem okEvents_single (r : ReadResult) :
    okEvents [r] = .read r.data r.err :: if r.data.length > 0 then [.send r.data none] else [] := by
  simp [okEvents]

/-- The goroutine at a read that reports `io.EOF`, when the `Send` of its bytes, if any,
succeeds. -/
theorem uploadTask_last_eof (sendRes : Nat → Option GoError) (r : ReadResult)
    (post : List ReadResult) (k : Nat) (hre : r.err = some .EOF)
    (hs : ∀ i, i < sendCount [r] → sendRes (k + i) = none) :
    uploadTask sendRes (r :: post) k = okEvents [r] ++ [.closeSend, .signal none] := by
  rw [uploadTask_cons, okEvents_single]
  by_cases hn : r.data.length > 0
  · have h0 : sendRes k = none := by
      have := hs 0 (by rw [sendCount_cons]; simp [hn])
      simpa using this
    simp [hn, h0, hre]
  · simp [hn, hre]

/-- The goroutine at a read that reports another error, when the `Send` of its bytes, if any,
succeeds. -/
theorem uploadTask_last_err (sendRes : Nat → Option GoError) (r : ReadResult)
    (post : List ReadResult) (k : Nat) (e : GoError) (hre : r.err = some e) (hne : e ≠ .EOF)
    (hs : ∀ i, i < sendCount [r] → sendRes (k + i) = none) :
    uploadTask sendRes (r :: post) k =
      okEvents [r] ++ [.signal (some (.other (lit "reading stdin: " ++ e.Error)))] := by
  rw [uploadTask_cons, okEvents_single]
  cases e with
  | EOF => exact absurd rfl hne
  | other t =>
    by_cases hn : r.data.length > 0
    · have h0 : sendRes k = none := by
        have := hs 0 (by rw [sendCount_cons]; simp [hn])
        simpa using this
      simp [hn, h0, hre, GoError.Error]
    · simp [hn, hre, GoError.Error]

theorem sends_split (sendRes : Nat → Option GoError) (k : Nat) (pre : List ReadResult)
    (r : ReadResult) (hs : ∀ i, i < sendCount (pre ++ [r]) → sendRes (k + i) = none) :
    (∀ i, i < sendCount pre → sendRes (k + i) = none) ∧
    (∀ i, i < sendCount [r] → sendRes (k + sendCount pre + i) = none) := by
  rw [sendCount_append] at hs
  refine ⟨fun i hi => hs i (by omega), fun i hi => ?_⟩
  have := hs (sendCount pre + i) (by omega)
  rwa [← Nat.add_assoc] at this

/-- Every run of the goroutine is of one of three kinds: no read reported an error and no
`Send` failed; or there is a first read whose `Send` failed; or there is a first read
that reported an error, its `Send`, if any, having succeeded. -/
theorem uploadTask_cases (sendRes : Nat → Option GoError) (reads : List ReadResult) :
    ∀ k : Nat,
    ((∀ x ∈ reads, x.err = none) ∧ ∀ i, i < sendCount reads → sendRes (k + i) = none) ∨
    ∃ pre r post, reads = pre ++ r :: post ∧ (∀ x ∈ pre, x.err = none) ∧
      (∀ i, i < sendCount pre → sendRes (k + i) = none) ∧
      ((0 < r.data.length ∧ ∃ e, sendRes (k + sendCount pre) = some e) ∨
        ((∀ i, i < sendCount (pre ++ [r]) → sendRes (k + i) = none) ∧ ∃ e, r.err = some e)) := by
  induction reads with
  | nil => intro k; left; simp [sendCount]
  | cons r rest ih =>
    intro k
    by_cases hn : r.data.length > 0
    · cases hs : sendRes k with
      | some e =>
        right
        exact ⟨[], r, rest, rfl, by simp, by simp [sendCount], Or.inl ⟨hn, e, by simpa [sendCount] using hs⟩⟩
      | none =>
        cases hre : r.err with
        | some e =>
          right
          refine ⟨[], r, rest, rfl, by simp, by simp [sendCount], Or.inr ⟨?_, e, hre⟩⟩
          intro i hi
          have : i = 0 := by
            simp only [List.nil_append, sendCount_cons, hn, if_true] at hi
            simp [sendCount] at hi
            omega
          subst this
          simpa using hs
        | none =>
          rcases ih (k + 1) with ⟨h1, h2⟩ | ⟨pre, r2, post, hrd, hp1, hp2, hcase⟩
          · left
            refine ⟨?_, ?_⟩
            · intro x hx
              rcases List.mem_cons.mp hx with rfl | hx
              · exact hre
              · exact h1 x hx
            · intro i hi
              rw [sendCount_cons] at hi
              simp only [hn, if_true] at hi
              cases i with
              | zero => simpa using hs
              | succ j =>
                have := h2 j (by omega)
                rwa [show k + 1 + j = k + (j + 1) by omega] at this
          · right
            have hsc : sendCount (r :: pre) = sendCount pre + 1 := by
              rw [sendCount_cons]; simp only [hn, if_true]; omega
            refine ⟨r :: pre, r2, post, by rw [hrd]; rfl, ?_, ?_, ?_⟩
            · intro x hx
              rcases List.mem_cons.mp hx with rfl | hx
              · exact hre
              · exact hp1 x hx
            · intro i hi
              rw [hsc] at hi
              cases i with
              | zero => simpa using hs
              | succ j =>
                have := hp2 j (by omega)
                rwa [show k + 1 + j = k + (j + 1) by omega] at this
            · rw [hsc]
              rcases hcase with ⟨hpos, e, he⟩ | ⟨hall, e, he⟩
              · left
                exact ⟨hpos, e, by rwa [show k + 1 + sendCount pre = k + (sendCount pre + 1) by omega] at he⟩
              · right
                refine ⟨?_, e, he⟩
                intro i hi
                have hsc2 : sendCount (r :: pre ++ [r2]) = sendCount (pre ++ [r2]) + 1 := by
                  rw [List.cons_append, sendCount_cons]; simp only [hn, if_true]; omega
                rw [hsc2] at hi
                cases i with
                | zero => simpa using hs
                | succ j =>
                  have := hall j (by omega)
                  rwa [show k + 1 + j = k + (j + 1) by omega] at this
    · have hsc : ∀ l : List ReadResult, sendCount (r :: l) = sendCount l := by
        intro l; rw [sendCount_cons]; simp only [hn, if_false]; omega
      cases hre : r.err with
      | some e =>
        right
        refine ⟨[], r, rest, rfl, by simp, by simp [sendCount], Or.inr ⟨?_, e, hre⟩⟩
        intro i hi
        simp only [List.nil_append, hsc] at hi
        simp [sendCount] at hi
      | none =>
        rcases ih k with ⟨h1, h2⟩ | ⟨pre, r2, post, hrd, hp1, hp2, hcase⟩
        · left
          refine ⟨?_, ?_⟩
          · intro x hx
            rcases List.mem_cons.mp hx with rfl | hx
            · exact hre
            · exact h1 x hx
          · intro i hi
            rw [hsc] at hi
            exact h2 i hi
        · right
          refine ⟨r :: pre, r2, post, by rw [hrd]; rfl, ?_, ?_, ?_⟩
          · intro x hx
            rcases List.mem_cons.mp hx with rfl | hx
            · exact hre
            · exact hp1 x hx
          · intro i hi
            rw [hsc] at hi
            exact hp2 i hi
          · rw [hsc, List.cons_append, hsc]
            exact hcase

theorem uploadTask_running (sendRes : Nat → Option GoError) (reads : List ReadResult) (k : Nat)
    (he : ∀ x ∈ reads, x.err = none) (hs : ∀ i, i < sendCount reads → sendRes (k + i) = none) :
    uploadTask sendRes reads k = okEvents reads := by
  have := uploadTask_ok_append sendRes reads k [] he hs
  simpa [uploadTask] using this

theorem uploadTask_eof (sendRes : Nat → Option GoError) (pre : List ReadResult)
    (r : ReadResult) (post : List ReadResult) (k : Nat)
    (he : ∀ x ∈ pre, x.err = none) (hre : r.err = some .EOF)
    (hs : ∀ i, i < sendCount (pre ++ [r]) → sendRes (k + i) = none) :
    uploadTask sendRes (pre ++ r :: post) k =
      okEvents (pre ++ [r]) ++ [.closeSend, .signal none] := by
  obtain ⟨hs1, hs2⟩ := sends_split sendRes k pre r hs
  rw [uploadTask_ok_append sendRes pre k (r :: post) he hs1,
    uploadTask_last_eof sendRes r post (k + sendCount pre) hre hs2, okEvents_append,
    List.append_assoc]

theorem uploadTask_readErr (sendRes : Nat → Option GoError) (pre : List ReadResult)
    (r : ReadResult) (post : List ReadResult) (k : Nat) (e : GoError)
    (he : ∀ x ∈ pre, x.err = none) (hre : r.err = some e) (hne : e ≠ .EOF)
    (hs : ∀ i, i < sendCount (pre ++ [r]) → sendRes (k + i) = none) :
    uploadTask sendRes (pre ++ r :: post) k =
      okEvents (pre ++ [r]) ++ [.signal (some (.other (lit "reading stdin: " ++ e.Error)))] := by
  obtain ⟨hs1, hs2⟩ := sends_split sendRes k pre r hs
  rw [uploadTask_ok_append sendRes pre k (r :: post) he hs1,
    uploadTask_last_err sendRes r post (k + sendCount pre) e hre hne hs2, okEvents_append,
    List.append_assoc]

theorem uploadTask_sendErr (sendRes : Nat → Option GoError) (pre : List ReadResult)
    (r : ReadResult) (post : List ReadResult) (k : Nat) (e : GoError)
    (he : ∀ x ∈ pre, x.err = none) (hs : ∀ i, i < sendCount pre → sendRes (k + i) = none)
    (hn : 0 < r.data.length) (hse : sendRes (k + sendCount pre) = some e) :
    uploadTask sendRes (pre ++ r :: post) k =
      okEvents pre ++ [.read r.data r.err, .send r.data (some e),
        .signal (some (.other (lit "write: " ++ e.Error)))] := by
  rw [uploadTask_ok_append sendRes pre k (r :: post) he hs, uploadTask_cons]
  simp [hn, hse]

theorem uploadTask_nil_iff (sendRes : Nat → Option GoError) (reads : List ReadResult) (k : Nat) :
    UpEvent.signal none ∈ uploadTask sendRes reads k ↔
      ∃ pre r post, reads = pre ++ r :: post ∧ (∀ x ∈ pre, x.err = none) ∧
        r.err = some .EOF ∧ ∀ i, i < sendCount (pre ++ [r]) → sendRes (k + i) = none := by
  constructor
  · intro h
    rcases uploadTask_cases sendRes reads k with ⟨h1, h2⟩ | ⟨pre, r, post, hrd, hp1, hp2, hcase⟩
    · rw [uploadTask_running sendRes reads k h1 h2] at h
      exact absurd h ((okEvents_quiet reads).2 none)
    · subst hrd
      rcases hcase with ⟨hpos, e, he⟩ | ⟨hall, e, he⟩
      · rw [uploadTask_sendErr sendRes pre r post k e hp1 hp2 hpos he] at h
        rcases List.mem_append.mp h with h | h
        · exact absurd h ((okEvents_quiet pre).2 none)
        · simp at h
      · cases e with
        | EOF => exact ⟨pre, r, post, rfl, hp1, he, hall⟩
        | other t =>
          rw [uploadTask_readErr sendRes pre r post k _ hp1 he (by simp) hall] at h
          rcases List.mem_append.mp h with h | h
          · exact absurd h ((okEvents_quiet _).2 none)
          · simp at h
  · rintro ⟨pre, r, post, rfl, hp1, he, hall⟩
    rw [uploadTask_eof sendRes pre r post k hp1 he hall]
    simp

/-! ## The claims -/

/-- C1. When the metadata carries exactly one `service` value `s` and exactly one `repository`
value `r`, `parseHeader` succeeds if and only if `s` is `git-receive-pack` or
`git-upload-pack`, byte for byte; on success it returns `(s, r)`; for every other `s` it
fails with an `InvalidArgument` error. -/
theorem C1_parseHeader_allowList (md : MD) (rx : RecvStream) (s r : GoString)
    (hs : md.Get (lit "service") = [s]) (hr : md.Get (lit "repository") = [r]) :
    ((∃ v, parseHeader ⟨some md, rx⟩ = .ok v) ↔ (s = pushSvc ∨ s = fetchSvc)) ∧
    ((s = pushSvc ∨ s = fetchSvc) → parseHeader ⟨some md, rx⟩ = .ok (s, r)) ∧
    (¬ (s = pushSvc ∨ s = fetchSvc) →
      parseHeader ⟨some md, rx⟩ = .error ⟨.InvalidArgument, lit "bad service: " ++ s⟩) := by
  have key : parseHeader ⟨some md, rx⟩ =
      if s ≠ pushSvc ∧ s ≠ fetchSvc then
        .error ⟨.InvalidArgument, lit "bad service: " ++ s⟩
      else .ok (s, r) := by
    simp [parseHeader, hs, hr]
  by_cases h : s = pushSvc ∨ s = fetchSvc
  · have h2 : ¬ (s ≠ pushSvc ∧ s ≠ fetchSvc) := by tauto
    rw [key, if_neg h2]
    exact ⟨⟨fun _ => h, fun _ => ⟨_, rfl⟩⟩, fun _ => rfl, fun hn => absurd h hn⟩
  · have h2 : s ≠ pushSvc ∧ s ≠ fetchSvc := by tauto
    rw [key, if_pos h2]
    refine ⟨⟨?_, fun hh => absurd hh h⟩, fun hh => absurd hh h, fun _ => rfl⟩
    rintro ⟨v, hv⟩
    cases hv

/-- C1 at concrete inputs: an allowed name passes with its repository; a proper prefix of an
allowed name, an extension of one, and the empty name are refused. -/
theorem C1_parseHeader_allowList_witness :
    parseHeader ⟨some (mdOf (lit "git-upload-pack")), rxDone⟩ =
      .ok (lit "git-upload-pack", lit "demo.git") ∧
    parseHeader ⟨some (mdOf (lit "git-upload-pac")), rxDone⟩ =
      .error ⟨.InvalidArgument, lit "bad service: git-upload-pac"⟩ ∧
    parseHeader ⟨some (mdOf (lit "git-receive-pack2")), rxDone⟩ =
      .error ⟨.InvalidArgument, lit "bad service: git-receive-pack2"⟩ ∧
    parseHeader ⟨some (mdOf []), rxDone⟩ = .error ⟨.InvalidArgument, lit "bad service: "⟩ :=
  ⟨(C1_parseHeader_allowList (mdOf (lit "git-upload-pack")) rxDone _ _ rfl rfl).2.1
      (Or.inr rfl),
    (C1_parseHeader_allowList (mdOf (lit "git-upload-pac")) rxDone _ (lit "demo.git") rfl
      rfl).2.2 (by decide),
    (C1_parseHeader_allowList (mdOf (lit "git-receive-pack2")) rxDone _ (lit "demo.git") rfl
      rfl).2.2 (by decide),
    (C1_parseHeader_allowList (mdOf []) rxDone _ (lit "demo.git") rfl rfl).2.2 (by decide)⟩

/-- C2. When the metadata is absent, or does not hold exactly one `service` value, or does
not hold exactly one `repository` value, `parseHeader` fails with an `InvalidArgument`
error about the metadata; the text of that error is never the one of the allow-list
check, whatever the `service` values are. -/
theorem C2_parseHeader_metadata (stream : ServerStream)
    (h : stream.md = none ∨ ∃ md, stream.md = some md ∧
      ((md.Get (lit "service")).length ≠ 1 ∨ (md.Get (lit "repository")).length ≠ 1)) :
    (stream.md = none →
      parseHeader stream = .error ⟨.InvalidArgument, lit "missing stream metadata"⟩) ∧
    (∀ md, stream.md = some md →
      parseHeader stream = .error ⟨.InvalidArgument, badMetadataMsg md⟩) ∧
    (∃ msg, parseHeader stream = .error ⟨.InvalidArgument, msg⟩ ∧
      ∀ s, msg ≠ lit "bad service: " ++ s) := by
  have hbad : ∀ md s, badMetadataMsg md ≠ lit "bad service: " ++ s := by
    intro md s hs
    have := congrArg List.head? hs
    simp [badMetadataMsg, lit] at this
  have hmiss : ∀ s, lit "missing stream metadata" ≠ lit "bad service: " ++ s := by
    intro s hs
    have := congrArg List.head? hs
    simp [lit] at this
  rcases h with h | ⟨md, h, hlen⟩
  · have e : parseHeader stream = .error ⟨.InvalidArgument, lit "missing stream metadata"⟩ := by
      simp [parseHeader, h]
    exact ⟨fun _ => e, fun md hmd => by simp [h] at hmd, _, e, hmiss⟩
  · have e : parseHeader stream = .error ⟨.InvalidArgument, badMetadataMsg md⟩ := by
      have h2 : (md.Get (lit "repository")).length ≠ 1 ∨ (md.Get (lit "service")).length ≠ 1 :=
        hlen.symm
      simp only [parseHeader, h]
      rw [if_pos h2]
      rfl
    refine ⟨fun hn => by simp [h] at hn, fun md2 hmd => ?_, _, e, hbad md⟩
    rw [h] at hmd
    cases hmd
    exact e

/-- C2 at concrete inputs: no metadata; an allowed service without a repository; two
service values of which the first is allowed. -/
theorem C2_parseHeader_metadata_witness :
    parseHeader ⟨none, rxDone⟩ = .error ⟨.InvalidArgument, lit "missing stream metadata"⟩ ∧
    parseHeader ⟨some mdNoRepo, rxDone⟩ =
      .error ⟨.InvalidArgument, lit "invalid repository ([]) or service ([git-upload-pack])"⟩ ∧
    parseHeader ⟨some mdTwoSvc, rxDone⟩ =
      .error ⟨.InvalidArgument,
        lit "invalid repository ([demo.git]) or service ([git-receive-pack sh])"⟩ :=
  ⟨(C2_parseHeader_metadata ⟨none, rxDone⟩ (Or.inl rfl)).1 rfl,
    (C2_parseHeader_metadata ⟨some mdNoRepo, rxDone⟩
      (Or.inr ⟨mdNoRepo, rfl, Or.inr (by decide)⟩)).2.1 mdNoRepo rfl,
    (C2_parseHeader_metadata ⟨some mdTwoSvc, rxDone⟩
      (Or.inr ⟨mdTwoSvc, rfl, Or.inl (by decide)⟩)).2.1 mdTwoSvc rfl⟩

/-- C3, with a command that may fail to start. `Connect` builds and runs a command only
after `parseHeader` has succeeded.  When validation fails, `Connect` returns the validation
error and has no effect at all: no command, no process, no frame sent or received.  When it
succeeds, the first effect is the one call of `exec.Command` and `cmd.Run`, the executable
is one of the two allowed names, and the argument list is exactly the single `repository`
value of the metadata; if the command does not start there is no other effect, and if it
starts the process follows, then the child's stream calls.  So there is exactly one
command and at most one process. -/
theorem C3_Connect_gate (cmdRun : GoString → List GoString → CmdResult)
    (stream : ServerStream) :
    (∀ err, parseHeader stream = .error err → Connect cmdRun stream = ([], some err)) ∧
    (∀ svc repo, parseHeader stream = .ok (svc, repo) →
      (svc = pushSvc ∨ svc = fetchSvc) ∧
      (∃ md, stream.md = some md ∧ md.Get (lit "repository") = [repo]) ∧
      (∀ err, cmdRun svc [repo] = .notStarted err →
        (Connect cmdRun stream).1 = [Effect.command svc [repo]]) ∧
      (∀ err stderr calls, cmdRun svc [repo] = .ran err stderr calls →
        (Connect cmdRun stream).1 =
          Effect.command svc [repo] :: Effect.spawn svc [repo] :: calls.map Effect.stream) ∧
      ((Connect cmdRun stream).1.filter Effect.isCommand).length = 1 ∧
      ((Connect cmdRun stream).1.filter Effect.isSpawn).length ≤ 1) ∧
    ((∃ name args, Effect.command name args ∈ (Connect cmdRun stream).1 ∨
        Effect.spawn name args ∈ (Connect cmdRun stream).1) →
      ∃ v, parseHeader stream = .ok v) := by
  have hstream : ∀ calls : List StreamEffect,
      (calls.map Effect.stream).filter Effect.isCommand = [] ∧
      (calls.map Effect.stream).filter Effect.isSpawn = [] := by
    intro calls
    induction calls with
    | nil => exact ⟨rfl, rfl⟩
    | cons c calls ih => simp [Effect.isCommand, Effect.isSpawn]
  refine ⟨fun err h => ?_, fun svc repo h => ?_, ?_⟩
  · simp [Connect, h]
  · obtain ⟨md, hmd, _, hr, hallow⟩ := parseHeader_ok_inv stream svc repo h
    refine ⟨hallow, ⟨md, hmd, hr⟩, fun err hc => ?_, fun err stderr calls hc => ?_, ?_, ?_⟩
    · simp only [Connect, h, hc]
    · simp only [Connect, h, hc]
    · cases hc : cmdRun svc [repo] with
      | notStarted err => simp [Connect, h, hc, Effect.isCommand]
      | ran err stderr calls =>
        simp [Connect, h, hc, Effect.isCommand, (hstream calls).1]
    · cases hc : cmdRun svc [repo] with
      | notStarted err => simp [Connect, h, hc, Effect.isSpawn]
      | ran err stderr calls =>
        simp [Connect, h, hc, Effect.isSpawn, (hstream calls).2]
  · rintro ⟨name, args, hm⟩
    cases hp : parseHeader stream with
    | error err => simp [Connect, hp] at hm
    | ok v => exact ⟨v, rfl⟩

/-- C3, with a command that may fail to start, at concrete inputs: a refused service leaves
no effect; an allowed one runs `git-upload-pack demo.git` once, and the process comes
before the child's stream calls. -/
theorem C3_Connect_gate_witness :
    Connect cmdFails ⟨some (mdOf (lit "sh")), rxDone⟩ =
      ([], some ⟨.InvalidArgument, lit "bad service: sh"⟩) ∧
    (Connect cmdFails ⟨some (mdOf fetchSvc), rxDone⟩).1 =
      [.command (lit "git-upload-pack") [lit "demo.git"],
        .spawn (lit "git-upload-pack") [lit "demo.git"], .stream .recv,
        .stream (.send (lit "0000"))] :=
  ⟨(C3_Connect_gate cmdFails ⟨some (mdOf (lit "sh")), rxDone⟩).1 _ rfl,
    ((C3_Connect_gate cmdFails ⟨some (mdOf fetchSvc), rxDone⟩).2.1 fetchSvc
      (lit "demo.git") rfl).2.2.2.1 _ _ _ rfl⟩

/-- C3 does not hold when the allowed executable is not installed: validation succeeds,
`Connect` runs the command, no process is started, and `Connect` returns the `Internal`
error with no diagnostic text. -/
theorem C3_Connect_gate_counterexample :
    parseHeader ⟨some (mdOf fetchSvc), rxDone⟩ = .ok (fetchSvc, lit "demo.git") ∧
    Connect cmdMissing ⟨some (mdOf fetchSvc), rxDone⟩ =
      ([.command (lit "git-upload-pack") [lit "demo.git"]],
        some ⟨.Internal, lit "git-upload-pack failed: "⟩) ∧
    ((Connect cmdMissing ⟨some (mdOf fetchSvc), rxDone⟩).1.filter Effect.isSpawn).length =
      0 :=
  ⟨rfl, rfl, rfl⟩

/-- C5. For a validated request, `Connect` returns nil if and only if `cmd.Run()` returned
nil; when `cmd.Run()` returned an error, `Connect` returns an `Internal` error whose text
is the service name, then ` failed: `, then the bytes the child wrote to its standard
error, all of them and unchanged. -/
theorem C5_Connect_result (cmdRun : GoString → List GoString → CmdResult)
    (stream : ServerStream) (svc repo : GoString)
    (h : parseHeader stream = .ok (svc, repo)) :
    ((Connect cmdRun stream).2 = none ↔ (cmdRun svc [repo]).err = none) ∧
    ((cmdRun svc [repo]).err ≠ none →
      (Connect cmdRun stream).2 =
        some ⟨.Internal, svc ++ lit " failed: " ++ (cmdRun svc [repo]).stderr⟩) := by
  simp only [Connect, h]
  cases hr : (cmdRun svc [repo]).err with
  | none => simp
  | some e => simp

/-- C5 at concrete inputs: a child that fails after writing a diagnostic, and one that
succeeds. -/
theorem C5_Connect_result_witness :
    (Connect cmdFails ⟨some (mdOf fetchSvc), rxDone⟩).2 =
      some ⟨.Internal, lit "git-upload-pack failed: fatal: not a git repository\n"⟩ ∧
    (Connect cmdOk ⟨some (mdOf pushSvc), rxDone⟩).2 = none :=
  ⟨(C5_Connect_result cmdFails ⟨some (mdOf fetchSvc), rxDone⟩ fetchSvc (lit "demo.git")
      rfl).2 (by decide),
    (C5_Connect_result cmdOk ⟨some (mdOf pushSvc), rxDone⟩ pushSvc (lit "demo.git")
      rfl).1.mpr rfl⟩

/-- C10. When the leftover of a `streamReader` is not empty, `Read(p)` returns
`min(len(p), len(leftover))` bytes, which are the first bytes of the leftover, with a nil
error, leaves the stream untouched (no `Recv`), and keeps the rest of the leftover.  A
`Read` changes the number of `Recv` calls only when the leftover is empty, and then by
one. -/
theorem C10_Read_leftover (sr : streamReader) (p : List Byte) :
    (sr.buf ≠ [] →
      (sr.Read p).1.n = min p.length sr.buf.length ∧
      (sr.Read p).1.bytes = sr.buf.take (min p.length sr.buf.length) ∧
      (sr.Read p).1.err = none ∧
      (sr.Read p).2.stream = sr.stream ∧
      (sr.Read p).2.buf = sr.buf.drop (min p.length sr.buf.length)) ∧
    ((sr.Read p).2.stream.recvCalls ≠ sr.stream.recvCalls → sr.buf = []) ∧
    (sr.buf = [] → (sr.Read p).2.stream.recvCalls = sr.stream.recvCalls + 1) := by
  refine ⟨fun h => ?_, fun h => ?_, fun h => ?_⟩
  · have hpos : sr.buf.length > 0 := List.length_pos.mpr h
    simp only [streamReader.Read, if_pos hpos, ReadOut.bytes, copy_bytes]
    exact ⟨rfl, trivial, trivial, trivial, rfl⟩
  · by_contra hne
    have hpos : sr.buf.length > 0 := List.length_pos.mpr hne
    simp [streamReader.Read, if_pos hpos, copy] at h
  · have hz : ¬ sr.buf.length > 0 := by simp [h]
    simp only [streamReader.Read, if_neg hz, RecvStream.Recv]
    cases hf : sr.stream.frames <;> simp [copy]

/-- C10 at a concrete input: three bytes left over, a buffer of two. -/
theorem C10_Read_leftover_witness :
    (srLeft.Read [0, 0]).1.n = 2 ∧ (srLeft.Read [0, 0]).1.bytes = [1, 2] ∧
    (srLeft.Read [0, 0]).1.err = none ∧ (srLeft.Read [0, 0]).2.stream = ⟨[[9]], .EOF, 4⟩ ∧
    (srLeft.Read [0, 0]).2.buf = [3] :=
  (C10_Read_leftover srLeft [0, 0]).1 (by decide)

/-- C4. Frames arrive and the stream is then complete; `Read` is called with any buffers.
The bytes the calls return, put end to end, are a prefix of the frame payloads put end to
end; and a call that reports an error reports `io.EOF`, after the calls before it have
returned all the bytes of all the frames.  The error is reported in the end: with more
non-empty buffers than there are bytes and frames, some call reports `io.EOF`. -/
theorem C4_Read_stream (frames ps : List (List Byte)) (calls : Nat) :
    ((readAll ⟨⟨frames, .EOF, calls⟩, []⟩ ps).map ReadOut.bytes).flatten <+: frames.flatten ∧
    (∀ (i : Nat) (e : GoError),
      ((readAll ⟨⟨frames, .EOF, calls⟩, []⟩ ps).map ReadOut.err)[i]? = some (some e) →
      e = .EOF ∧
      (((readAll ⟨⟨frames, .EOF, calls⟩, []⟩ ps).take i).map ReadOut.bytes).flatten =
        frames.flatten) ∧
    ((∀ p ∈ ps, p ≠ []) → frames.flatten.length + frames.length < ps.length →
      ∃ i : Nat,
        ((readAll ⟨⟨frames, .EOF, calls⟩, []⟩ ps).map ReadOut.err)[i]? = some (some .EOF)) := by
  obtain ⟨h1, h2⟩ := readAll_spec ps ⟨⟨frames, .EOF, calls⟩, []⟩
  refine ⟨by simpa [pending] using h1, fun i e h => ?_, fun hne hlen => ?_⟩
  · simpa [pending] using h2 i e h
  · exact readAll_reaches_fin ps ⟨⟨frames, .EOF, calls⟩, []⟩ hne (by simpa [owed, pending] using hlen)

/-- C4 at a concrete input: three frames, the second empty, read into buffers of sizes 2, 0,
5, 1, 1, ...: the seventh call is the first to report `io.EOF`, and the six before it
returned the five bytes. -/
theorem C4_Read_stream_witness :
    ((readAll ⟨⟨demoFrames, .EOF, 0⟩, []⟩ demoBufs).map ReadOut.err)[6]? = some (some .EOF) ∧
    (((readAll ⟨⟨demoFrames, .EOF, 0⟩, []⟩ demoBufs).take 6).map ReadOut.bytes).flatten =
      [1, 2, 3, 4, 5] :=
  ⟨by decide, ((C4_Read_stream demoFrames demoBufs 0).2.1 6 .EOF (by decide)).2⟩

/-- C6. While every `Send` succeeds, the goroutine reads up to and including the first read
that reports an error, and the frames it sends are the chunks read that are not empty, in
the order read: no frame is empty, none is longer than 1024 bytes, no `Send` is made for an
empty read, the frames put end to end are the bytes read put end to end, and if the stream
is closed for sending, that is after all the frames. -/
theorem C6_upload_frames (sendRes : Nat → Option GoError) (reads : List ReadResult) (k : Nat)
    (hs : ∀ i, sendRes i = none) :
    dataRead (uploadTask sendRes reads k) = (upToFirstErr reads).map ReadResult.data ∧
    framesSent (uploadTask sendRes reads k) =
      ((upToFirstErr reads).map ReadResult.data).filter (fun d => decide (d.length > 0)) ∧
    (∀ d e, UpEvent.send d e ∈ uploadTask sendRes reads k → e = none ∧ 0 < d.length) ∧
    (∀ f ∈ framesSent (uploadTask sendRes reads k), 0 < f.length ∧ f.length ≤ 1024) ∧
    (framesSent (uploadTask sendRes reads k)).flatten =
      ((upToFirstErr reads).map ReadResult.data).flatten ∧
    (UpEvent.closeSend ∈ uploadTask sendRes reads k →
      ∃ pre, uploadTask sendRes reads k = pre ++ [.closeSend, .signal none] ∧
        framesSent pre = framesSent (uploadTask sendRes reads k)) := by
  obtain ⟨h1, h2⟩ := uploadTask_allSent sendRes hs reads k
  rw [h1] at h2
  have hmem : ∀ f ∈ framesSent (uploadTask sendRes reads k), 0 < f.length ∧ f.length ≤ 1024 := by
    intro f hf
    rw [h2, List.mem_filter, List.mem_map] at hf
    obtain ⟨⟨r, _, rfl⟩, hpos⟩ := hf
    exact ⟨by simpa using hpos, r.le⟩
  refine ⟨h1, h2, ?_, hmem, ?_, ?_⟩
  · exact uploadTask_sends_ok sendRes hs reads k
  · rw [h2, flatten_filter_nonempty]
  · intro hc
    obtain ⟨_, i2, _, _, i5⟩ := uploadTask_trace sendRes reads k
    obtain ⟨pre, hp, _⟩ := i2 (i5 hc)
    refine ⟨pre, hp, ?_⟩
    conv_rhs => rw [hp]
    rw [framesSent_append]
    simp [framesSent]

/-- C6 at a concrete input: reads of two bytes, of none, and of one byte with `io.EOF` give
the frames `[1, 2]` and `[3]`, then the close. -/
theorem C6_upload_frames_witness :
    framesSent (uploadTask sendOk demoReads 0) = [[1, 2], [3]] ∧
    uploadTask sendOk demoReads 0 =
      [.read [1, 2] none, .send [1, 2] none, .read [] none, .read [3] (some .EOF),
        .send [3] none, .closeSend, .signal none] :=
  ⟨(C6_upload_frames sendOk demoReads 0 (fun _ => rfl)).2.1, rfl⟩

/-- C7, for input that ends. The goroutine puts a value on `writeErr` once a read has reported
an error or a `Send` has failed, as its last event and only once; while neither has happened
it has put none.  Every run is of one of these kinds, and its events are:
the reads with their sends, while no read reported an error and no `Send` failed;
the reads with their sends, then `CloseSend`, then nil, when the first read to report an
error reported `io.EOF` and every `Send` up to the one of its bytes succeeded;
the reads with their sends, then the error `reading stdin: ...`, when that read reported
another error; the reads with their sends, then the failed `Send`, then the error
`write: ...`, when a `Send` failed, whatever the read that came with it reported.
Reads with their sends hold no `CloseSend` and no value, so the value is nil if and only if
a read reported `io.EOF` and no `Send` up to the one of its bytes failed. -/
theorem C7_upload_signal (sendRes : Nat → Option GoError) (reads : List ReadResult) (k : Nat) :
    ((∀ x ∈ reads, x.err = none) → (∀ i, i < sendCount reads → sendRes (k + i) = none) →
      uploadTask sendRes reads k = okEvents reads) ∧
    (∀ pre r post, reads = pre ++ r :: post → (∀ x ∈ pre, x.err = none) →
      r.err = some .EOF → (∀ i, i < sendCount (pre ++ [r]) → sendRes (k + i) = none) →
      uploadTask sendRes reads k = okEvents (pre ++ [r]) ++ [.closeSend, .signal none]) ∧
    (∀ pre r post e, reads = pre ++ r :: post → (∀ x ∈ pre, x.err = none) →
      r.err = some e → e ≠ .EOF →
      (∀ i, i < sendCount (pre ++ [r]) → sendRes (k + i) = none) →
      uploadTask sendRes reads k =
        okEvents (pre ++ [r]) ++
          [.signal (some (.other (lit "reading stdin: " ++ e.Error)))]) ∧
    (∀ pre r post e, reads = pre ++ r :: post → (∀ x ∈ pre, x.err = none) →
      (∀ i, i < sendCount pre → sendRes (k + i) = none) → 0 < r.data.length →
      sendRes (k + sendCount pre) = some e →
      uploadTask sendRes reads k =
        okEvents pre ++ [.read r.data r.err, .send r.data (some e),
          .signal (some (.other (lit "write: " ++ e.Error)))]) ∧
    (((∀ x ∈ reads, x.err = none) ∧ ∀ i, i < sendCount reads → sendRes (k + i) = none) ∨
      ∃ pre r post, reads = pre ++ r :: post ∧ (∀ x ∈ pre, x.err = none) ∧
        (∀ i, i < sendCount pre → sendRes (k + i) = none) ∧
        ((0 < r.data.length ∧ ∃ e, sendRes (k + sendCount pre) = some e) ∨
          ((∀ i, i < sendCount (pre ++ [r]) → sendRes (k + i) = none) ∧
            ∃ e, r.err = some e))) ∧
    (∀ l, UpEvent.closeSend ∉ okEvents l ∧ ∀ v, UpEvent.signal v ∉ okEvents l) ∧
    (UpEvent.signal none ∈ uploadTask sendRes reads k ↔
      ∃ pre r post, reads = pre ++ r :: post ∧ (∀ x ∈ pre, x.err = none) ∧
        r.err = some .EOF ∧ ∀ i, i < sendCount (pre ++ [r]) → sendRes (k + i) = none) ∧
    (∀ v, UpEvent.signal v ∈ uploadTask sendRes reads k →
      ∃ pre, uploadTask sendRes reads k = pre ++ [.signal v] ∧ ∀ w, UpEvent.signal w ∉ pre) ∧
    ((∃ r ∈ reads, r.err ≠ none) → ∃ v, UpEvent.signal v ∈ uploadTask sendRes reads k) := by
  refine ⟨uploadTask_running sendRes reads k, ?_, ?_, ?_, uploadTask_cases sendRes reads k,
    okEvents_quiet, uploadTask_nil_iff sendRes reads k, uploadTask_signal_last sendRes reads k,
    uploadTask_terminates sendRes reads k⟩
  · intro pre r post hrd he hre hs
    rw [hrd]
    exact uploadTask_eof sendRes pre r post k he hre hs
  · intro pre r post e hrd he hre hne hs
    rw [hrd]
    exact uploadTask_readErr sendRes pre r post k e he hre hne hs
  · intro pre r post e hrd he hs hn hse
    rw [hrd]
    exact uploadTask_sendErr sendRes pre r post k e he hs hn hse

/-- C7, for input that ends, at concrete inputs: reads of two bytes, of none, and of one byte
with `io.EOF`, every `Send` succeeding, end in the close and a nil; a `Send` that fails on
the byte that came with `io.EOF` ends in `write: EOF` without a close. -/
theorem C7_upload_signal_witness :
    uploadTask sendOk demoReads 0 =
      [.read [1, 2] none, .send [1, 2] none, .read [] none, .read [3] (some .EOF),
        .send [3] none, .closeSend, .signal none] ∧
    uploadTask sendBroken lastRead 0 =
      [.read [7] (some .EOF), .send [7] (some .EOF),
        .signal (some (.other (lit "write: EOF")))] :=
  ⟨(C7_upload_signal sendOk demoReads 0).2.1
      [⟨[1, 2], by decide, none⟩, ⟨[], by decide, none⟩] ⟨[3], by decide, some .EOF⟩ [] rfl
      (by simp) rfl (fun _ _ => rfl),
    (C7_upload_signal sendBroken lastRead 0).2.2.2.1 [] ⟨[7], by decide, some .EOF⟩ [] .EOF rfl
      (by simp) (fun _ h => absurd h (Nat.not_lt_zero _)) (by decide) rfl⟩

/-- C7 does not hold while local input stays open: after a read of two bytes and a read of
none, neither with an error, and with every `Send` succeeding, the goroutine has read and
sent and has put no value on `writeErr`; it is waiting in `Read`. -/
theorem C7_upload_signal_counterexample :
    uploadTask sendOk openReads 0 = [.read [1, 2] none, .send [1, 2] none, .read [] none] ∧
    signalOf (uploadTask sendOk openReads 0) = none :=
  ⟨rfl, rfl⟩

/-- C8. In `connect`, once the stream is open: the read loop receives a frame, writes its
payload whole to standard output, and only then receives the next.  When every write
succeeds and the stream ends with `io.EOF`, the loop reads `writeErr` and `connect` returns
the value the goroutine put there (and waits as long as there is none).  When the stream
ends with another error, or a write fails, `connect` returns an error at once: `writeErr`
is not read, and no later frame is written. -/
theorem C8_connect_readLoop (grpcConnect : GoString → Except GoError ClientStream)
    (writeRes : Nat → Option GoError) (svc : GoString) (reads : List ReadResult) (k : Nat)
    (stream : ClientStream) (hopen : grpcConnect svc = .ok stream) :
    (connect grpcConnect writeRes svc reads k).up = uploadTask stream.sendRes reads 0 ∧
    (stream.fin = .EOF → (∀ i, i < stream.frames.length → writeRes (k + 1 + i) = none) →
      (connect grpcConnect writeRes svc reads k).down =
        relayed stream.frames ++ [.recv, .waitSignal] ∧
      (∀ v, UpEvent.signal v ∈ uploadTask stream.sendRes reads 0 →
        (connect grpcConnect writeRes svc reads k).out = .returned v) ∧
      ((∀ v, UpEvent.signal v ∉ uploadTask stream.sendRes reads 0) →
        (connect grpcConnect writeRes svc reads k).out = .blocked)) ∧
    (∀ t, stream.fin = .other t →
      (∀ i, i < stream.frames.length → writeRes (k + 1 + i) = none) →
      (connect grpcConnect writeRes svc reads k).down = relayed stream.frames ++ [.recv] ∧
      DownEvent.waitSignal ∉ (connect grpcConnect writeRes svc reads k).down ∧
      (connect grpcConnect writeRes svc reads k).out =
        .returned (some (.other (lit "read: " ++ t)))) ∧
    (∀ j data e, stream.frames[j]? = some data →
      (∀ i, i < j → writeRes (k + 1 + i) = none) → writeRes (k + 1 + j) = some e →
      (connect grpcConnect writeRes svc reads k).down =
        relayed (stream.frames.take j) ++ [.recv, .write data (some e)] ∧
      DownEvent.waitSignal ∉ (connect grpcConnect writeRes svc reads k).down ∧
      (connect grpcConnect writeRes svc reads k).out =
        .returned (some (.other (lit "writing stdout: " ++ e.Error)))) := by
  refine ⟨by simp [connect, hopen], fun hfin hw => ?_, fun t hfin hw => ?_,
    fun j data e hj hw he => ?_⟩
  · have hd := downloadLoop_eof writeRes (signalOf (uploadTask stream.sendRes reads 0))
      stream.frames (k + 1) hw
    refine ⟨by simp [connect, hopen, hfin, hd], fun v hv => ?_, fun hn => ?_⟩
    · have hs := signalOf_of_mem _ v (uploadTask_signal_last stream.sendRes reads 0 v hv)
      rw [hs] at hd
      simp [connect, hopen, hfin, hs, hd]
    · have hs := signalOf_none _ hn
      rw [hs] at hd
      simp [connect, hopen, hfin, hs, hd]
  · have hd := downloadLoop_recvErr writeRes (signalOf (uploadTask stream.sendRes reads 0)) t
      stream.frames (k + 1) hw
    have hdown : (connect grpcConnect writeRes svc reads k).down =
        relayed stream.frames ++ [.recv] := by simp [connect, hopen, hfin, hd]
    refine ⟨hdown, ?_, by simp [connect, hopen, hfin, hd]⟩
    rw [hdown]
    simpa using relayed_no_wait stream.frames
  · have hd := downloadLoop_writeErr writeRes (signalOf (uploadTask stream.sendRes reads 0))
      stream.fin stream.frames (k + 1) j data e hj hw he
    have hdown : (connect grpcConnect writeRes svc reads k).down =
        relayed (stream.frames.take j) ++ [.recv, .write data (some e)] := by
      simp [connect, hopen, hd]
    refine ⟨hdown, ?_, by simp [connect, hopen, hd]⟩
    rw [hdown]
    simpa using relayed_no_wait (stream.frames.take j)

/-- C8 at concrete inputs: two frames and then `io.EOF`, while the upload failed, return the
upload's error after both frames were written; two frames and then a reset return the read
error without a look at `writeErr`; a closed standard output stops at the first frame. -/
theorem C8_connect_readLoop_witness :
    ((connect dialBroken writeOk fetchSvc demoReads 1).down =
        [.recv, .write [10, 11] none, .recv, .write [12] none, .recv, .waitSignal] ∧
      (connect dialBroken writeOk fetchSvc demoReads 1).out =
        .returned (some (.other (lit "write: EOF")))) ∧
    ((connect dialReset writeOk fetchSvc demoReads 1).down =
        [.recv, .write [10, 11] none, .recv, .write [12] none, .recv] ∧
      (connect dialReset writeOk fetchSvc demoReads 1).out =
        .returned (some (.other (lit "read: connection reset")))) ∧
    ((connect dialReset writeClosed fetchSvc demoReads 1).down =
        [.recv, .write [10, 11] (some (.other (lit "file already closed")))] ∧
      (connect dialReset writeClosed fetchSvc demoReads 1).out =
        .returned (some (.other (lit "writing stdout: file already closed")))) :=
  ⟨⟨((C8_connect_readLoop dialBroken writeOk fetchSvc demoReads 1 _ rfl).2.1 rfl
        (fun _ _ => rfl)).1,
      ((C8_connect_readLoop dialBroken writeOk fetchSvc demoReads 1 _ rfl).2.1 rfl
        (fun _ _ => rfl)).2.1 _ (by decide)⟩,
    ⟨((C8_connect_readLoop dialReset writeOk fetchSvc demoReads 1 _ rfl).2.2.1 _ rfl
        (fun _ _ => rfl)).1,
      ((C8_connect_readLoop dialReset writeOk fetchSvc demoReads 1 _ rfl).2.2.1 _ rfl
        (fun _ _ => rfl)).2.2⟩,
    ⟨((C8_connect_readLoop dialReset writeClosed fetchSvc demoReads 1 _ rfl).2.2.2 0 _ _ rfl
        (fun _ h => absurd h (Nat.not_lt_zero _)) rfl).1,
      ((C8_connect_readLoop dialReset writeClosed fetchSvc demoReads 1 _ rfl).2.2.2 0 _ _ rfl
        (fun _ h => absurd h (Nat.not_lt_zero _)) rfl).2.2⟩⟩

/-- C9, for writes that succeed. The control input is `k` lines `capabilities`, then a line `L` and its
newline, then anything.  While each of the first `k` writes to standard output succeeds,
`run` writes `k` times the reply and then: if `L` is `connect ` followed by `svc`, it
returns what `connect` returns for the service `svc`, the input after the newline of `L`
untouched; if `L` is not `capabilities` and does not begin with `connect `, it fails with
`unsupported command: L`, no further write made and `connect` not called.  If one of the
`k` writes fails, `run` returns its error at once. -/
theorem C9_run_control {ρ : Type} (connect : GoString → List Byte → Nat → ρ)
    (writeRes : Nat → Option GoError) (fin : GoError) (k : Nat) (L rest : List Byte)
    (hL : (10 : Byte) ∉ L) :
    ((∀ i, i < k → writeRes i = none) →
      (∀ svc, L = lit "connect " ++ svc →
        run connect writeRes fin (capLines k ++ L ++ 10 :: rest) =
          (List.replicate k (capReply, none), .connected (connect svc rest k))) ∧
      (L ≠ lit "capabilities" → HasPrefix L (lit "connect ") = false →
        run connect writeRes fin (capLines k ++ L ++ 10 :: rest) =
          (List.replicate k (capReply, none),
            .failed (.other (lit "unsupported command: " ++ L))))) ∧
    (∀ j err, j < k → (∀ i, i < j → writeRes i = none) → writeRes j = some err →
      run connect writeRes fin (capLines k ++ L ++ 10 :: rest) =
        (List.replicate j (capReply, none) ++ [(capReply, some err)], .failed err)) := by
  have hin : capLines k ++ L ++ 10 :: rest = capLines k ++ (L ++ 10 :: rest) := by simp
  have hlen : (capLines k ++ (L ++ 10 :: rest)).length + 1 =
      k + ((12 * k + L.length + rest.length + 1) + 1) := by
    simp only [List.length_append, List.length_cons, capLines_length]
    omega
  rw [hin]
  unfold run
  rw [hlen]
  refine ⟨fun hw => ?_, fun j err hj hw he => ?_⟩
  · have hcaps := runLoop_caps connect writeRes fin (L ++ 10 :: rest) k
      ((12 * k + L.length + rest.length + 1) + 1) 0 (by simpa using hw)
    have hline := runLoop_line connect writeRes fin (12 * k + L.length + rest.length + 1)
      L rest (0 + k) hL
    rw [hcaps, hline]
    constructor
    · intro svc hsvc
      have h1 : L ≠ lit "capabilities" := hsvc ▸ connect_not_cap svc
      have h2 : HasPrefix L (lit "connect ") = true := hsvc ▸ HasPrefix_append _ svc
      rw [if_neg h1, if_pos h2]
      simp [hsvc]
    · intro h1 h2
      rw [if_neg h1, if_neg (by simp [h2])]
      simp
  · exact runLoop_caps_writeErr connect writeRes fin (L ++ 10 :: rest) err j k
      ((12 * k + L.length + rest.length + 1) + 1) 0 hj (by simpa using hw) (by simpa using he)

/-- C9, for writes that succeed, at concrete inputs: two lines `capabilities` and `connect
git-upload-pack`; one line `capabilities` and `connect` without a space; a line
`capabilities` that ends in a carriage return. -/
theorem C9_run_control_witness :
    run connectEcho writeOk .EOF (lit "capabilities\ncapabilities\nconnect git-upload-pack\nPACK") =
      ([(capReply, none), (capReply, none)],
        .connected (lit "git-upload-pack", lit "PACK", 2)) ∧
    run connectEcho writeOk .EOF (lit "capabilities\nconnect\n") =
      ([(capReply, none)], .failed (.other (lit "unsupported command: connect"))) ∧
    run connectEcho writeOk .EOF (lit "capabilities\r\n") =
      ([], .failed (.other (lit "unsupported command: capabilities\r"))) :=
  ⟨((C9_run_control connectEcho writeOk .EOF 2 (lit "connect git-upload-pack") (lit "PACK")
      (by decide)).1 (fun _ _ => rfl)).1 (lit "git-upload-pack") rfl,
    ((C9_run_control connectEcho writeOk .EOF 1 (lit "connect") [] (by decide)).1
      (fun _ _ => rfl)).2 (by decide) (by decide),
    ((C9_run_control connectEcho writeOk .EOF 0 (lit "capabilities\r") [] (by decide)).1
      (fun _ _ => rfl)).2 (by decide) (by decide)⟩

/-- C9 does not hold when standard output cannot be written: on the input `capabilities`,
`connect git-upload-pack`, the first write fails, `run` returns that error, no reply was
written and `connect` was not called. -/
theorem C9_run_control_counterexample :
    run connectEcho writeClosed .EOF (lit "capabilities\nconnect git-upload-pack\n") =
      ([(capReply, some (.other (lit "file already closed")))],
        .failed (.other (lit "file already closed"))) ∧
    run connectEcho writeClosed .EOF (lit "capabilities\nconnect git-upload-pack\n") ≠
      ([(capReply, none)], .connected (connectEcho (lit "git-upload-pack") [] 1)) := by
  have h : run connectEcho writeClosed .EOF (lit "capabilities\nconnect git-upload-pack\n") =
      ([(capReply, some (.other (lit "file already closed")))],
        .failed (.other (lit "file already closed"))) := by
    rfl
  refine ⟨h, ?_⟩
  rw [h]
  intro hc
  cases hc

end GitRemoteGrpc
